import Mathlib

/-!
# rgb_recorder_epoch_timestamp : the VideoRecorder class of src/main.cpp

A shallow embedding of `VideoRecorder` (path derivation, initialize, the capture loop of
startRecording, stopRecording, saveTimestampsToJson and the destructor) and the theorems
that settle the claims C1 .. C10 about it.

Conventions of the embedding
* A `std::string` is a Lean `String`; path algebra is done on its list of characters.
* `std::filesystem::path` is modelled in its POSIX form (separator '/', no root name), with
  the decomposition rules of ISO C++17 [fs.path] as implemented by GNU libstdc++.
* The camera, the encoder, the clock, the keyboard and the file system are external: what
  they return is an input of the model (`InitEnv`, `Tick`, `VideoRecorder.writable`), what
  the program does to them is recorded in ghost fields of `VideoRecorder` (`video`, `fs`,
  `log`).
* External calls are taken to return; the one exception that is modelled is that of
  `std::filesystem::create_directories`, which `initialize` does not catch.
* Banner and progress text written to `std::cout` carries no state and is left out, except
  the progress line whose guard reads `frame_count`.
-/

namespace RgbRecorder

/-! ## std::filesystem::path, POSIX generic format -/

/-- Characters of `s` after the last occurrence of `c`; all of `s` when `c` does not occur. -/
def afterLast (c : Char) (s : List Char) : List Char :=
  (s.reverse.takeWhile (fun x => x != c)).reverse

/-- Characters of `s` up to and including the last occurrence of `c`; empty when `c` does
not occur. -/
def uptoLast (c : Char) (s : List Char) : List Char :=
  (s.reverse.dropWhile (fun x => x != c)).reverse

/-- The list `s` without its trailing run of `c`. -/
def dropTrailing (c : Char) (s : List Char) : List Char :=
  (s.reverse.dropWhile (fun x => x == c)).reverse

/-- Model of `path::filename()`: the last element of the path, which is what follows the last
separator (empty for a path that ends in a separator or is empty). -/
def filename (p : List Char) : List Char := afterLast '/' p

/-- Model of `path::has_relative_path()`: the path has some element besides the root
directory, that is, some character other than the separator. -/
def has_relative_path (p : List Char) : Bool := p.any (fun x => x != '/')

/-- Model of `path::parent_path()`: the path itself when it has no relative path; otherwise the
prefix that ends with the last-but-one element. That prefix is the part before the
separators preceding the filename, the root directory "/" when only separators precede the
filename, and empty when the path is a single filename. -/
def parent_path (p : List Char) : List Char :=
  if !has_relative_path p then p
  else
    let dir := dropTrailing '/' (uptoLast '/' p)
    if dir != [] then dir
    else if p.head? = some '/' then ['/']
    else []

/-- Model of `path::stem()`: the filename without its extension. The filenames "." and ".."
and a filename whose only period is its first character have no extension; otherwise the
extension starts at the last period. -/
def stem (p : List Char) : List Char :=
  let f := filename p
  if f.length ≤ 2 ∧ f.head? = some '.' then f
  else
    let base := uptoLast '.' f
    if base.length ≤ 1 then f
    else base.dropLast

/-- Model of `operator/` on paths: an absolute right operand replaces the left one; otherwise
a separator is inserted when the left operand has a filename, and the right operand is
appended. -/
def operatorDiv (p q : List Char) : List Char :=
  if q.head? = some '/' then q
  else if filename p != [] then p ++ '/' :: q
  else p ++ q

/-- Source: `VideoRecorder::getJsonPath` (main.cpp 35-40). -/
def getJsonPath (mp4_path : String) : String :=
  let path := mp4_path.data
  let directory := parent_path path
  let filename := stem path
  String.mk (operatorDiv directory (filename ++ ".json".data))

/-- POSIX pathname equivalence used to compare directories: a run of separators stands for
one separator. -/
def squeezeSlashes : List Char → List Char
  | [] => []
  | [c] => [c]
  | c :: d :: rest =>
    if c = '/' ∧ d = '/' then squeezeSlashes (d :: rest)
    else c :: squeezeSlashes (d :: rest)

/-! ## Values supplied by the external collaborators -/

/-- Value of a C++ `double` as far as the program inspects it (one comparison with zero and
one assignment of a constant): a NaN, an infinity, or a finite number. -/
inductive Double where
  | nan
  | negInf
  | posInf
  | finite (q : ℚ)
deriving DecidableEq

/-- IEEE 754 comparison `a <= b`: false as soon as one operand is a NaN. -/
def Double.le : Double → Double → Bool
  | .nan, _ => false
  | _, .nan => false
  | .negInf, _ => true
  | _, .posInf => true
  | .posInf, _ => false
  | _, .negInf => false
  | .finite a, .finite b => decide (a ≤ b)

/-- IEEE 754 comparison `a < b`: false as soon as one operand is a NaN. -/
def Double.lt : Double → Double → Bool
  | .nan, _ => false
  | _, .nan => false
  | .posInf, _ => false
  | _, .negInf => false
  | .negInf, _ => true
  | _, .posInf => true
  | .finite a, .finite b => decide (a < b)

/-- A `cv::Mat`, reduced to its element data; `empty()` holds when there is none. -/
structure Mat where
  data : List Nat
deriving DecidableEq

/-- Model of `cv::Mat::empty()`. -/
def Mat.empty (m : Mat) : Bool := m.data.isEmpty

/-- What the environment supplies during one iteration of the capture loop: the frame that
`cap >> frame` delivers, the value `getCurrentTimestampNs()` returns if it is called, and the
value `cv::waitKey(1)` returns if it is called. -/
structure Tick where
  frame : Mat
  now : Int
  key : Int
deriving DecidableEq

/-- What the external calls of `initialize` answer. -/
structure InitEnv where
  /-- whether `cap.isOpened()` holds after `cap.open(camera_id)` -/
  capOpens : Bool
  /-- `static_cast<int>(cap.get(cv::CAP_PROP_FRAME_WIDTH))` -/
  frame_width : Int
  /-- `static_cast<int>(cap.get(cv::CAP_PROP_FRAME_HEIGHT))` -/
  frame_height : Int
  /-- `cap.get(cv::CAP_PROP_FPS)` -/
  fps : Double
  /-- whether `std::filesystem::create_directories` returns; it throws otherwise -/
  dirsCreated : Bool
  /-- whether `writer.isOpened()` holds after `writer.open(...)` -/
  writerOpens : Bool

/-- Calls the program makes on its collaborators, in the order it makes them, and the lines
it writes to `std::cerr`. -/
inductive Event where
  | capOpen (camera_id : Int)
  | capRelease
  | capRead
  | createDirectories (dir : String)
  | writerOpen (file : String) (fps : Double) (width height : Int)
  | writerWrite (frame : Mat)
  | writerRelease
  | clockRead
  | imshow (frame : Mat)
  | waitKey
  | destroyAllWindows
  | fileWrite (path content : String)
  | cerr (line : String)
  | progress (frame_count : Int)
deriving DecidableEq

/-! ## The recorder -/

/-- The data members of `VideoRecorder` (main.cpp 19-25), with `cap` and `writer` reduced to
their `isOpened()` state, together with the part of the outside world the recorder acts on:
`video` is the sequence of frames the sink has accepted since it was last opened, `fs` the
text files by path, `writable` tells whether a `std::ofstream` on a path opens, and `log` is
the trace of external calls. -/
structure VideoRecorder where
  capOpened : Bool
  writerOpened : Bool
  timestamps : List Int
  output_path : String
  json_path : String
  is_recording : Bool
  frame_count : Int
  video : List Mat
  fs : String → Option String
  writable : String → Bool
  log : List Event

/-- Largest value of the C++ `int` that holds `frame_count`. -/
def INT_MAX : Int := 2147483647

/-- Result of running code that contains the capture loop on a finite supply of ticks. -/
inductive Outcome where
  /-- the call returned in state `s`; `rest` are the ticks it did not consume -/
  | done (s : VideoRecorder) (rest : List Tick)
  /-- every tick is consumed and the loop is still iterating, in state `s` -/
  | running (s : VideoRecorder)
  /-- `frame_count++` was reached with `frame_count == INT_MAX`: signed overflow, for which
  C++ defines no behaviour -/
  | undefined

/-- Result of `initialize`: it returns a `bool`, or leaves by the exception of
`create_directories`. -/
inductive InitResult where
  | returned (ok : Bool)
  | threw
deriving DecidableEq

namespace VideoRecorder

/-- Source: the constructor `VideoRecorder()` (main.cpp 43), in a given outside world. -/
def new (fs : String → Option String) (writable : String → Bool) : VideoRecorder :=
  { capOpened := false, writerOpened := false, timestamps := [], output_path := "",
    json_path := "", is_recording := false, frame_count := 0, video := [], fs := fs,
    writable := writable, log := [] }

/-- Appends one event to the trace. -/
def emit (s : VideoRecorder) (e : Event) : VideoRecorder := { s with log := s.log ++ [e] }

/-- Source: `VideoRecorder::initialize` (main.cpp 45-90), renamed because the source name is
a reserved word of Lean. `cap.open` and `writer.open` release a handle that is still open
before they open the new one (OpenCV). -/
def initializeRecorder (s : VideoRecorder) (output_file : String) (camera_id : Int)
    (env : InitEnv) : VideoRecorder × InitResult :=
  let s := { s with output_path := output_file, json_path := getJsonPath output_file }
  let s := if s.capOpened then s.emit Event.capRelease else s
  let s := { s with capOpened := env.capOpens, log := s.log ++ [Event.capOpen camera_id] }
  if !s.capOpened then
    (s.emit (Event.cerr ("Error: Cannot open camera " ++ toString camera_id)), .returned false)
  else
    let frame_width := env.frame_width
    let frame_height := env.frame_height
    let fps := env.fps
    let fps := if Double.le fps (.finite 0) then Double.finite 30 else fps
    let output_dir := parent_path s.output_path.data
    let s :=
      if output_dir ≠ [] then s.emit (Event.createDirectories (String.mk output_dir)) else s
    if output_dir ≠ [] ∧ env.dirsCreated = false then (s, .threw)
    else
      let s := if s.writerOpened then s.emit Event.writerRelease else s
      let s := { s with writerOpened := env.writerOpens,
                        video := if env.writerOpens then [] else s.video,
                        log := s.log ++
                          [Event.writerOpen s.output_path fps frame_width frame_height] }
      if !s.writerOpened then
        (s.emit (Event.cerr ("Error: Cannot open video writer for " ++ s.output_path)),
          .returned false)
      else
        (s, .returned true)

/-- Source: the text of one record, main.cpp 170. -/
def recordText (i : Nat) (timestamp : Int) : String :=
  "  \x7b \"frame\": " ++ toString i ++ ", \"timestamp_ns\": " ++ toString timestamp ++ " \x7d"

/-- Source: the loop of `saveTimestampsToJson` (main.cpp 169-175) from index `i` on; `size` is
`timestamps.size()`, the list holds the entries `timestamps[i]`, `timestamps[i+1]`, ... still
to be written and `out` is what the stream has received so far. -/
def writeRecords (size : Nat) : Nat → List Int → String → String
  | _, [], out => out
  | i, t :: rest, out =>
    let out := out ++ recordText i t
    let out := if i < size - 1 then out ++ "," else out
    writeRecords size (i + 1) rest (out ++ "\n")

/-- Source: everything `saveTimestampsToJson` sends to the stream (main.cpp 167-177). -/
def jsonText (timestamps : List Int) : String :=
  writeRecords timestamps.length 0 timestamps "[\n" ++ "]\n"

/-- Source: `VideoRecorder::saveTimestampsToJson` (main.cpp 160-180). Opening the
`std::ofstream` truncates the file, so the text written is the whole new content. -/
def saveTimestampsToJson (s : VideoRecorder) : VideoRecorder :=
  if !s.writable s.json_path then
    s.emit (Event.cerr ("Error: Cannot create JSON file " ++ s.json_path))
  else
    { s with fs := fun p => if p = s.json_path then some (jsonText s.timestamps) else s.fs p,
             log := s.log ++ [Event.fileWrite s.json_path (jsonText s.timestamps)] }

/-- Source: `VideoRecorder::stopRecording` (main.cpp 142-158). -/
def stopRecording (s : VideoRecorder) : VideoRecorder :=
  let s := { s with is_recording := false }
  let s :=
    if s.writerOpened then { s with writerOpened := false, log := s.log ++ [Event.writerRelease] }
    else s
  let s := s.emit Event.destroyAllWindows
  saveTimestampsToJson s

/-- Source: the test of main.cpp 128-129, `char key = cv::waitKey(1) & 0xFF;` followed by
`key == 'q' || key == 'Q'`: the low byte of the key code is the code of q or of Q. -/
def isStopKey (key : Int) : Bool :=
  let low := key % 256
  low == Int.ofNat 'q'.toNat || low == Int.ofNat 'Q'.toNat

/-- Source: the `while (is_recording)` loop of `startRecording` (main.cpp 106-137), one tick
per iteration. `writer.write` on a writer that is not open stores nothing (OpenCV). The
counter `frame_count` is a C++ `int`: incrementing it at INT_MAX has no defined behaviour,
which the model reports as `Outcome.undefined`; `%` on it truncates, as `Int.tmod` does. -/
def captureLoop (s : VideoRecorder) : List Tick → Outcome
  | [] => if s.is_recording then .running s else .done s []
  | t :: ticks =>
    if !s.is_recording then .done s (t :: ticks)
    else
      let s := s.emit Event.capRead
      if t.frame.empty then
        captureLoop (s.emit (Event.cerr "Warning: Empty frame captured")) ticks
      else
        let s := s.emit Event.clockRead
        let timestamp := t.now
        let s := { s with video := if s.writerOpened then s.video ++ [t.frame] else s.video,
                          log := s.log ++ [Event.writerWrite t.frame] }
        let s := { s with timestamps := s.timestamps ++ [timestamp] }
        if s.frame_count ≥ INT_MAX then .undefined
        else
          let s := { s with frame_count := s.frame_count + 1 }
          let s := s.emit (Event.imshow t.frame)
          let s := s.emit Event.waitKey
          if isStopKey t.key then .done s ticks
          else
            let s :=
              if Int.tmod s.frame_count 30 = 0 then s.emit (Event.progress s.frame_count) else s
            captureLoop s ticks

/-- Source: `VideoRecorder::startRecording` (main.cpp 92-140). -/
def startRecording (s : VideoRecorder) (ticks : List Tick) : Outcome :=
  if !s.capOpened || !s.writerOpened then
    .done (s.emit (Event.cerr "Error: Camera or video writer not initialized")) ticks
  else
    let s := { s with is_recording := true, timestamps := [], frame_count := 0 }
    match captureLoop s ticks with
    | .done s rest => .done (stopRecording s) rest
    | .running s => .running s
    | .undefined => .undefined

/-- Source: the destructor `~VideoRecorder` (main.cpp 182-190). -/
def destructor (s : VideoRecorder) : VideoRecorder :=
  let s :=
    if s.capOpened then { s with capOpened := false, log := s.log ++ [Event.capRelease] } else s
  let s :=
    if s.writerOpened then { s with writerOpened := false, log := s.log ++ [Event.writerRelease] }
    else s
  s.emit Event.destroyAllWindows

end VideoRecorder

/-! ## Vocabulary of the specification -/

/-- The ledger file as the specification words it: an opening bracket line, one line per
record in insertion order, a comma after every record but the last, a closing bracket line. -/
def ledgerLines : List String → String
  | [] => ""
  | [r] => r ++ "\n"
  | r :: r2 :: rest => r ++ "," ++ "\n" ++ ledgerLines (r2 :: rest)

/-- The record of the specification: exactly the two fields `frame` and `timestamp_ns`. -/
def specRecord (frame_index : Nat) (timestamp_ns : Int) : String :=
  "  \x7b \"frame\": " ++ toString frame_index ++ ", \"timestamp_ns\": " ++ toString timestamp_ns
    ++ " \x7d"

/-- The records of a ledger: entry `i` paired with the frame index `i`. -/
def specRecords (ledger : List Int) : List String :=
  ledger.enum.map (fun e => specRecord e.1 e.2)

/-- The persisted ledger file of the specification. -/
def ledgerFileSpec (ledger : List Int) : String :=
  "[\n" ++ ledgerLines (specRecords ledger) ++ "]\n"

/-- The ticks whose pull delivers a frame. -/
def framed (ticks : List Tick) : List Tick := ticks.filter (fun t => !t.frame.empty)

/-- A tick at which the loop sees the stop signal: a frame is delivered and the key read after
it is q or Q. -/
def Tick.stops (t : Tick) : Bool := !t.frame.empty && VideoRecorder.isStopKey t.key

/-- Observable part of an outcome, for evaluation on concrete inputs: whether the call
returned, and of the final state the flags, ledger, frame counter, sink content and trace,
with the ticks left unconsumed. -/
structure Summary where
  returned : Bool
  is_recording : Bool
  capOpened : Bool
  writerOpened : Bool
  timestamps : List Int
  frame_count : Int
  video : List Mat
  log : List Event
  rest : List Tick
deriving DecidableEq

/-- The summary of an outcome; none for undefined behaviour. -/
def Outcome.summary : Outcome → Option Summary
  | .done s rest =>
    some ⟨true, s.is_recording, s.capOpened, s.writerOpened, s.timestamps, s.frame_count,
      s.video, s.log, rest⟩
  | .running s =>
    some ⟨false, s.is_recording, s.capOpened, s.writerOpened, s.timestamps, s.frame_count,
      s.video, s.log, []⟩
  | .undefined => none

/-- The state of an outcome, when it has one. -/
def Outcome.state? : Outcome → Option VideoRecorder
  | .done s _ => some s
  | .running s => some s
  | .undefined => none

/-- State after the body of one loop iteration that pulled the frame of `u`, up to and
including the key read (main.cpp 108-128). -/
def afterFrame (s : VideoRecorder) (u : Tick) : VideoRecorder :=
  { s with video := if s.writerOpened then s.video ++ [u.frame] else s.video,
           timestamps := s.timestamps ++ [u.now],
           frame_count := s.frame_count + 1,
           log := s.log ++ [Event.capRead, Event.clockRead, Event.writerWrite u.frame,
             Event.imshow u.frame, Event.waitKey] }

/-- The rates handed to the sink: the `fps` argument of each `writer.open` call of a trace. -/
def passedRates : List Event → List Double
  | [] => []
  | Event.writerOpen _ fps _ _ :: rest => fps :: passedRates rest
  | _ :: rest => passedRates rest

/-- Whether an event writes a file through `std::ofstream`, as the ledger flush does. -/
def Event.isFlush : Event → Bool
  | .fileWrite _ _ => true
  | _ => false

/-- The order "flushed before the sink is released", read on a trace: no release of the sink
occurs unless a flush occurs earlier in the trace. -/
def flushPrecedesRelease : List Event → Bool
  | [] => true
  | Event.writerRelease :: _ => false
  | e :: rest => e.isFlush || flushPrecedesRelease rest

/-- Whether an event is a progress line of the capture loop. -/
def Event.isProgress : Event → Bool
  | .progress _ => true
  | _ => false

/-- The calls of one iteration of the capture loop, in the order in which C10 has them: the
pull; then, when the pull is empty, the warning and nothing else; otherwise the clock read,
the write of the frame to the sink, the preview and, last, the key read. -/
def iterationEvents (u : Tick) : List Event :=
  if u.frame.empty then [Event.capRead, Event.cerr "Warning: Empty frame captured"]
  else [Event.capRead, Event.clockRead, Event.writerWrite u.frame, Event.imshow u.frame,
    Event.waitKey]

/-- The events a step added to the trace: those of `after` beyond the length of `before`. -/
def newEvents (before after : VideoRecorder) : List Event := after.log.drop before.log.length

/-! ## Reading the ledger file back -/

/-- Tokens of the structured-data text of the ledger file. -/
inductive Tok where
  | lbracket
  | rbracket
  | lbrace
  | rbrace
  | colon
  | comma
  | str (name : List Char)
  | num (value : Int)
deriving DecidableEq

/-- State of the tokenizer: between tokens, inside a string, after a minus sign, inside the
digits of a number. -/
inductive LexState where
  | idle
  | inStr (acc : List Char)
  | minus
  | inNum (neg : Bool) (acc : Nat)

/-- Value of a decimal digit character. -/
def digitValue (c : Char) : Nat := c.toNat - '0'.toNat

/-- The integer a sign and a magnitude denote. -/
def signed (neg : Bool) (n : Nat) : Int := if neg then -(n : Int) else (n : Int)

/-- Tokenizer of the ledger text: blanks and line ends separate tokens, the punctuation marks
are tokens, a string runs from a double quote to the next one, a number is an optional
minus sign followed by decimal digits. Any other character makes the text ill-formed. -/
def lex : LexState → List Char → Option (List Tok)
  | .idle, [] => some []
  | .inStr _, [] => none
  | .minus, [] => none
  | .inNum neg acc, [] => some [Tok.num (signed neg acc)]
  | .inStr acc, c :: cs =>
    if c = '\x22' then (lex .idle cs).map (fun ts => Tok.str acc.reverse :: ts)
    else lex (.inStr (c :: acc)) cs
  | .minus, c :: cs =>
    if c.isDigit then lex (.inNum true (digitValue c)) cs else none
  | .inNum neg acc, c :: cs =>
    if c.isDigit then lex (.inNum neg (acc * 10 + digitValue c)) cs
    else
      (if c = ' ' ∨ c = '\n' then lex .idle cs
       else if c = '[' then (lex .idle cs).map (fun ts => Tok.lbracket :: ts)
       else if c = ']' then (lex .idle cs).map (fun ts => Tok.rbracket :: ts)
       else if c = '\x7b' then (lex .idle cs).map (fun ts => Tok.lbrace :: ts)
       else if c = '\x7d' then (lex .idle cs).map (fun ts => Tok.rbrace :: ts)
       else if c = ':' then (lex .idle cs).map (fun ts => Tok.colon :: ts)
       else if c = ',' then (lex .idle cs).map (fun ts => Tok.comma :: ts)
       else if c = '\x22' then lex (.inStr []) cs
       else if c = '-' then lex .minus cs
       else none).map (fun ts => Tok.num (signed neg acc) :: ts)
  | .idle, c :: cs =>
    if c = ' ' ∨ c = '\n' then lex .idle cs
    else if c = '[' then (lex .idle cs).map (fun ts => Tok.lbracket :: ts)
    else if c = ']' then (lex .idle cs).map (fun ts => Tok.rbracket :: ts)
    else if c = '\x7b' then (lex .idle cs).map (fun ts => Tok.lbrace :: ts)
    else if c = '\x7d' then (lex .idle cs).map (fun ts => Tok.rbrace :: ts)
    else if c = ':' then (lex .idle cs).map (fun ts => Tok.colon :: ts)
    else if c = ',' then (lex .idle cs).map (fun ts => Tok.comma :: ts)
    else if c = '\x22' then lex (.inStr []) cs
    else if c = '-' then lex .minus cs
    else if c.isDigit then lex (.inNum false (digitValue c)) cs
    else none

/-- Records of a token sequence that follows an opening bracket: one or more objects with the
two fields `frame` (a natural number) and `timestamp_ns` (an integer), in this order,
separated by commas, closed by the bracket. -/
def parseRecords : List Tok → Option (List (Nat × Int))
  | Tok.lbrace :: Tok.str f :: Tok.colon :: Tok.num v :: Tok.comma :: Tok.str g :: Tok.colon ::
      Tok.num w :: Tok.rbrace :: rest =>
    if f = "frame".data ∧ g = "timestamp_ns".data ∧ 0 ≤ v then
      match rest with
      | [Tok.rbracket] => some [(v.toNat, w)]
      | Tok.comma :: more => (parseRecords more).map (fun rs => (v.toNat, w) :: rs)
      | _ => none
    else none
  | _ => none

/-- Decoder of the persisted ledger file: the sequence of (frame, timestamp_ns) records the
text denotes, none when the text is not a well-formed sequence of such records. -/
def decodeLedger (text : String) : Option (List (Nat × Int)) :=
  match lex .idle text.data with
  | some [Tok.lbracket, Tok.rbracket] => some []
  | some (Tok.lbracket :: toks) => parseRecords toks
  | _ => none

/-- The tokens of one record with frame index `i` and timestamp `t`. -/
def recordToks (i : Nat) (t : Int) : List Tok :=
  [Tok.lbrace, Tok.str "frame".data, Tok.colon, Tok.num (i : Int), Tok.comma,
   Tok.str "timestamp_ns".data, Tok.colon, Tok.num t, Tok.rbrace]

/-- The tokens of a comma-separated sequence of records. -/
def linesToks : List (Nat × Int) → List Tok
  | [] => []
  | [r] => recordToks r.1 r.2
  | r :: r2 :: more => recordToks r.1 r.2 ++ Tok.comma :: linesToks (r2 :: more)

/-! ## Concrete sessions used for evaluation -/

/-- An environment in which every external call succeeds and the camera reports no rate. -/
def demoEnv : InitEnv :=
  { capOpens := true, frame_width := 640, frame_height := 480, fps := .finite 0,
    dirsCreated := true, writerOpens := true }

/-- A freshly constructed recorder in a world without files where every path is writable. -/
def demoNew : VideoRecorder := VideoRecorder.new (fun _ => none) (fun _ => true)

/-- The recorder after a successful `initialize("/a/b/clip.mp4", 0)`. -/
def demoReady : VideoRecorder := (demoNew.initializeRecorder "/a/b/clip.mp4" 0 demoEnv).1

/-- A tick that delivers a one-element frame. -/
def frameTick (pixel : Nat) (now key : Int) : Tick :=
  { frame := ⟨[pixel]⟩, now := now, key := key }

/-- A tick whose pull is empty. -/
def emptyTick (now key : Int) : Tick := { frame := ⟨[]⟩, now := now, key := key }

/-! ## Lemmas on splitting a character list at the last occurrence of a character -/

theorem takeWhile_ne_append (c : Char) (l rest : List Char) (h : ∀ x ∈ l, x ≠ c) :
    (l ++ c :: rest).takeWhile (fun x => x != c) = l := by
  induction l with
  | nil => simp
  | cons a l ih =>
    have ha : a ≠ c := h a (by simp)
    have hl : ∀ x ∈ l, x ≠ c := fun x hx => h x (by simp [hx])
    simp [List.takeWhile_cons, ha, ih hl]

theorem dropWhile_ne_append (c : Char) (l rest : List Char) (h : ∀ x ∈ l, x ≠ c) :
    (l ++ c :: rest).dropWhile (fun x => x != c) = c :: rest := by
  induction l with
  | nil => simp
  | cons a l ih =>
    have ha : a ≠ c := h a (by simp)
    have hl : ∀ x ∈ l, x ≠ c := fun x hx => h x (by simp [hx])
    simp [List.dropWhile_cons, ha, ih hl]

theorem takeWhile_ne_all (c : Char) (l : List Char) (h : ∀ x ∈ l, x ≠ c) :
    l.takeWhile (fun x => x != c) = l := by
  induction l with
  | nil => simp
  | cons a l ih =>
    have ha : a ≠ c := h a (by simp)
    have hl : ∀ x ∈ l, x ≠ c := fun x hx => h x (by simp [hx])
    simp [List.takeWhile_cons, ha, ih hl]

theorem dropWhile_ne_all (c : Char) (l : List Char) (h : ∀ x ∈ l, x ≠ c) :
    l.dropWhile (fun x => x != c) = [] := by
  induction l with
  | nil => simp
  | cons a l ih =>
    have ha : a ≠ c := h a (by simp)
    have hl : ∀ x ∈ l, x ≠ c := fun x hx => h x (by simp [hx])
    simp [List.dropWhile_cons, ha, ih hl]

theorem afterLast_append (c : Char) (d f : List Char) (h : c ∉ f) :
    afterLast c (d ++ c :: f) = f := by
  have hf : ∀ x ∈ f.reverse, x ≠ c := by
    intro x hx hxc
    exact h (by simpa [hxc] using hx)
  unfold afterLast
  rw [List.reverse_append, List.reverse_cons, List.append_assoc, List.singleton_append,
    takeWhile_ne_append c _ _ hf, List.reverse_reverse]

theorem uptoLast_append (c : Char) (d f : List Char) (h : c ∉ f) :
    uptoLast c (d ++ c :: f) = d ++ [c] := by
  have hf : ∀ x ∈ f.reverse, x ≠ c := by
    intro x hx hxc
    exact h (by simpa [hxc] using hx)
  unfold uptoLast
  rw [List.reverse_append, List.reverse_cons, List.append_assoc, List.singleton_append,
    dropWhile_ne_append c _ _ hf]
  simp

theorem afterLast_of_not_mem (c : Char) (f : List Char) (h : c ∉ f) : afterLast c f = f := by
  have hf : ∀ x ∈ f.reverse, x ≠ c := by
    intro x hx hxc
    exact h (by simpa [hxc] using hx)
  unfold afterLast
  rw [takeWhile_ne_all c _ hf, List.reverse_reverse]

theorem uptoLast_of_not_mem (c : Char) (f : List Char) (h : c ∉ f) : uptoLast c f = [] := by
  have hf : ∀ x ∈ f.reverse, x ≠ c := by
    intro x hx hxc
    exact h (by simpa [hxc] using hx)
  unfold uptoLast
  rw [dropWhile_ne_all c _ hf, List.reverse_nil]

theorem uptoLast_append_afterLast (c : Char) (s : List Char) :
    uptoLast c s ++ afterLast c s = s := by
  unfold uptoLast afterLast
  rw [← List.reverse_append, List.takeWhile_append_dropWhile, List.reverse_reverse]

theorem not_mem_afterLast (c : Char) (s : List Char) : c ∉ afterLast c s := by
  unfold afterLast
  intro h
  have h2 := List.mem_takeWhile_imp (List.mem_reverse.mp h)
  simp at h2

theorem uptoLast_nil_or_snoc (c : Char) (s : List Char) :
    uptoLast c s = [] ∨ ∃ d, uptoLast c s = d ++ [c] := by
  unfold uptoLast
  cases h : s.reverse.dropWhile (fun x => x != c) with
  | nil => left; simp
  | cons a l =>
    right
    have ha := List.head_dropWhile_not (fun x => x != c) s.reverse (by simp [h])
    simp [h] at ha
    exact ⟨l.reverse, by simp [ha]⟩

theorem dropTrailing_snoc_ne (c x : Char) (d : List Char) (h : x ≠ c) :
    dropTrailing c (d ++ [x]) = d ++ [x] := by
  unfold dropTrailing
  simp [List.dropWhile_cons, h]

theorem dropTrailing_snoc_eq (c : Char) (d : List Char) :
    dropTrailing c (d ++ [c]) = dropTrailing c d := by
  unfold dropTrailing
  simp [List.dropWhile_cons]

theorem dropTrailing_of_all (c : Char) (s : List Char) (h : ∀ x ∈ s, x = c) :
    dropTrailing c s = [] := by
  unfold dropTrailing
  rw [List.reverse_eq_nil_iff, List.dropWhile_eq_nil_iff]
  intro x hx
  simp [h x (List.mem_reverse.mp hx)]

theorem dropTrailing_nil_or_snoc (c : Char) (s : List Char) :
    dropTrailing c s = [] ∨ ∃ d x, dropTrailing c s = d ++ [x] ∧ x ≠ c := by
  unfold dropTrailing
  cases h : s.reverse.dropWhile (fun x => x == c) with
  | nil => left; simp
  | cons a l =>
    right
    have ha := List.head_dropWhile_not (fun x => x == c) s.reverse (by simp [h])
    simp [h] at ha
    exact ⟨l.reverse, a, by simp, ha⟩

theorem has_relative_path_false (p : List Char) (h : has_relative_path p = false) :
    ∀ x ∈ p, x = '/' := by
  unfold has_relative_path at h
  intro x hx
  by_contra hne
  have : p.any (fun x => x != '/') = true := List.any_eq_true.mpr ⟨x, hx, by simp [hne]⟩
  simp [this] at h

theorem has_relative_path_of_mem (p : List Char) (x : Char) (hx : x ∈ p) (hne : x ≠ '/') :
    has_relative_path p = true := by
  unfold has_relative_path
  exact List.any_eq_true.mpr ⟨x, hx, by simp [hne]⟩

/-- The three shapes a parent path takes: empty, a non-empty run of separators (the root
directory), or a path that ends in a character other than the separator. -/
theorem parent_path_cases (p : List Char) :
    parent_path p = [] ∨ (parent_path p ≠ [] ∧ ∀ x ∈ parent_path p, x = '/') ∨
      ∃ d x, parent_path p = d ++ [x] ∧ x ≠ '/' := by
  unfold parent_path
  cases hrel : has_relative_path p with
  | false =>
    simp only [Bool.not_false, if_true]
    by_cases hp : p = []
    · left; exact hp
    · right; left; exact ⟨hp, has_relative_path_false p hrel⟩
  | true =>
    simp only [Bool.not_true, Bool.false_eq_true, if_false]
    rcases dropTrailing_nil_or_snoc '/' (uptoLast '/' p) with h | ⟨d, x, h, hx⟩
    · simp only [h, bne_self_eq_false, Bool.false_eq_true, if_false]
      split
      · right; left; simp
      · left; rfl
    · right; right
      refine ⟨d, x, ?_, hx⟩
      simp [h]

theorem squeezeSlashes_of_all (p : List Char) (hne : p ≠ []) (h : ∀ x ∈ p, x = '/') :
    squeezeSlashes p = ['/'] := by
  induction p with
  | nil => exact absurd rfl hne
  | cons a l ih =>
    have ha : a = '/' := h a (by simp)
    cases l with
    | nil => simp [squeezeSlashes, ha]
    | cons b l2 =>
      have hb : b = '/' := h b (by simp)
      have := ih (by simp) (fun x hx => h x (by simp [hx]))
      simp [squeezeSlashes, ha, hb]
      simpa [hb] using this

/-- The filename is the stem followed by the extension, which is empty or is a period
followed by characters without a period. -/
theorem filename_eq_stem_append (p : List Char) :
    ∃ e, filename p = stem p ++ e ∧ (e = [] ∨ ∃ x, e = '.' :: x ∧ '.' ∉ x) := by
  unfold stem
  simp only
  split
  · exact ⟨[], by simp, Or.inl rfl⟩
  · split
    · exact ⟨[], by simp, Or.inl rfl⟩
    · rename_i hlen
      rcases uptoLast_nil_or_snoc '.' (filename p) with h | ⟨d, h⟩
      · simp [h] at hlen
      · refine ⟨'.' :: afterLast '.' (filename p), ?_, Or.inr ⟨_, rfl, not_mem_afterLast _ _⟩⟩
        have := uptoLast_append_afterLast '.' (filename p)
        rw [h] at this
        rw [h, List.dropLast_concat]
        simpa using this.symm

theorem not_mem_stem (p : List Char) : '/' ∉ stem p := by
  obtain ⟨e, he, _⟩ := filename_eq_stem_append p
  intro h
  have : '/' ∈ filename p := by rw [he]; exact List.mem_append_left _ h
  exact not_mem_afterLast '/' p this

/-- When the filename has a last period that is not its first character, and is not "..",
the stem is what precedes that period. -/
theorem stem_of_extension (p d x : List Char) (hf : filename p = d ++ '.' :: x) (hd : d ≠ [])
    (hx : '.' ∉ x) (hdd : filename p ≠ ['.', '.']) : stem p = d := by
  unfold stem
  simp only
  have hbase : uptoLast '.' (filename p) = d ++ ['.'] := by rw [hf]; exact uptoLast_append _ _ _ hx
  have hspecial : ¬ ((filename p).length ≤ 2 ∧ (filename p).head? = some '.') := by
    rintro ⟨hlen, hhead⟩
    rw [hf] at hlen hhead
    cases d with
    | nil => exact hd rfl
    | cons a d2 =>
      cases d2 with
      | nil =>
        cases x with
        | nil =>
          simp at hhead
          exact hdd (by rw [hf, hhead]; rfl)
        | cons b x2 => simp at hlen
      | cons b d3 => simp at hlen
  rw [if_neg hspecial, hbase]
  have : ¬ (d ++ ['.']).length ≤ 1 := by
    cases d with
    | nil => exact absurd rfl hd
    | cons a d2 => simp
  rw [if_neg this, List.dropLast_concat]

/-- A filename without a period, with its first character as its only period, or equal to
".." is its own stem. -/
theorem stem_of_no_extension (p : List Char)
    (h : '.' ∉ filename p ∨ (∃ x, filename p = '.' :: x ∧ '.' ∉ x) ∨ filename p = ['.', '.']) :
    stem p = filename p := by
  unfold stem
  simp only
  split
  · rfl
  · rcases h with h | ⟨x, hf, hx⟩ | h
    · rw [uptoLast_of_not_mem _ _ h]; simp
    · have : uptoLast '.' (filename p) = [] ++ ['.'] := by
        rw [hf]; exact uptoLast_append '.' [] x hx
      rw [this]; simp
    · rename_i hs
      exact absurd (by simp [h]) hs

/-- Shape of the derived path: the parent path followed, after a separator when the parent
path has a filename, by the new final component. -/
theorem parent_and_filename_of_operatorDiv (P q : List Char)
    (hP : P = [] ∨ (P ≠ [] ∧ ∀ x ∈ P, x = '/') ∨ ∃ d x, P = d ++ [x] ∧ x ≠ '/')
    (hq : '/' ∉ q) (hne : q ≠ []) :
    filename (operatorDiv P q) = q ∧
    squeezeSlashes (parent_path (operatorDiv P q)) = squeezeSlashes P ∧
    (P = [] ∨ P = ['/'] ∨ (∃ d x, P = d ++ [x] ∧ x ≠ '/') → parent_path (operatorDiv P q) = P) := by
  obtain ⟨a, q2, rfl⟩ := List.exists_cons_of_ne_nil hne
  have ha : a ≠ '/' := fun h => hq (by simp [h])
  have hhead : ¬ ((a :: q2).head? = some '/') := by simp [ha]
  have hfq : afterLast '/' (a :: q2) = a :: q2 := afterLast_of_not_mem _ _ hq
  have huq : uptoLast '/' (a :: q2) = [] := uptoLast_of_not_mem _ _ hq
  -- parent path of a path that starts with a run of separators followed by q
  have root : ∀ R : List Char, R ≠ [] → (∀ x ∈ R, x = '/') →
      filename (R ++ a :: q2) = a :: q2 ∧ parent_path (R ++ a :: q2) = ['/'] := by
    intro R hR hall
    obtain ⟨d, rfl⟩ : ∃ d, R = d ++ ['/'] := by
      rcases List.eq_nil_or_concat R with h | ⟨d, x, h⟩
      · exact absurd h hR
      · have : x = '/' := hall x (by simp [h])
        exact ⟨d, by simp [h, this]⟩
    have e1 : d ++ ['/'] ++ a :: q2 = d ++ '/' :: (a :: q2) := by simp
    refine ⟨by rw [filename, e1, afterLast_append _ _ _ hq], ?_⟩
    unfold parent_path
    rw [has_relative_path_of_mem _ a (by simp) ha, e1, uptoLast_append _ _ _ hq,
      dropTrailing_of_all _ _ hall]
    have : (d ++ '/' :: a :: q2).head? = some '/' := by
      cases d with
      | nil => rfl
      | cons b d2 => simp [hall b (by simp)]
    simp [this]
  rcases hP with rfl | ⟨hPne, hall⟩ | ⟨d, x, rfl, hx⟩
  · have e : operatorDiv [] (a :: q2) = a :: q2 := by
      unfold operatorDiv; simp [ha, filename, afterLast]
    rw [e]
    have hp : parent_path (a :: q2) = [] := by
      unfold parent_path
      rw [has_relative_path_of_mem _ a (by simp) ha, huq]
      simp [dropTrailing, ha]
    exact ⟨hfq, by rw [hp], fun _ => hp⟩
  · have hfP : filename P = [] := by
      obtain ⟨d, rfl⟩ : ∃ d, P = d ++ ['/'] := by
        rcases List.eq_nil_or_concat P with h | ⟨d, x, h⟩
        · exact absurd h hPne
        · have : x = '/' := hall x (by simp [h])
          exact ⟨d, by simp [h, this]⟩
      have : d ++ ['/'] = d ++ '/' :: [] := rfl
      rw [filename, this, afterLast_append _ _ _ (by simp)]
    have e : operatorDiv P (a :: q2) = P ++ a :: q2 := by
      unfold operatorDiv; simp [ha, hfP]
    rw [e]
    obtain ⟨h1, h2⟩ := root P hPne hall
    refine ⟨h1, by rw [h2, squeezeSlashes_of_all P hPne hall]; rfl, ?_⟩
    rintro (h | h | ⟨d, x, h, hx⟩)
    · exact absurd h hPne
    · rw [h2, h]
    · exact absurd (hall x (by simp [h])) hx
  · have hfP : filename (d ++ [x]) ≠ [] := by
      intro h
      have := uptoLast_append_afterLast '/' (d ++ [x])
      rw [show afterLast '/' (d ++ [x]) = [] from h, List.append_nil] at this
      rcases uptoLast_nil_or_snoc '/' (d ++ [x]) with h2 | ⟨d2, h2⟩
      · rw [h2] at this; simp at this
      · rw [h2] at this
        have := List.append_inj_right' this (by simp)
        simp at this
        exact hx this.symm
    have e : operatorDiv (d ++ [x]) (a :: q2) = (d ++ [x]) ++ '/' :: (a :: q2) := by
      unfold operatorDiv; simp [ha, hfP]
    rw [e]
    have hp : parent_path ((d ++ [x]) ++ '/' :: (a :: q2)) = d ++ [x] := by
      unfold parent_path
      rw [has_relative_path_of_mem _ a (by simp) ha, uptoLast_append _ _ _ hq,
        dropTrailing_snoc_eq, dropTrailing_snoc_ne _ _ _ hx]
      simp
    exact ⟨by rw [filename, afterLast_append _ _ _ hq], by rw [hp], fun _ => hp⟩

theorem parent_path_cases_rel (p : List Char) (hrel : has_relative_path p = true) :
    parent_path p = [] ∨ parent_path p = ['/'] ∨ ∃ d x, parent_path p = d ++ [x] ∧ x ≠ '/' := by
  unfold parent_path
  simp only [hrel, Bool.not_true, Bool.false_eq_true, if_false]
  rcases dropTrailing_nil_or_snoc '/' (uptoLast '/' p) with h | ⟨d, x, h, hx⟩
  · simp only [h, bne_self_eq_false, Bool.false_eq_true, if_false]
    split
    · right; left; rfl
    · left; rfl
  · right; right
    refine ⟨d, x, ?_, hx⟩
    simp [h]

theorem json_component (p : List Char) :
    '/' ∉ stem p ++ ".json".data ∧ stem p ++ ".json".data ≠ [] := by
  constructor
  · intro h
    rcases List.mem_append.mp h with h | h
    · exact not_mem_stem p h
    · revert h; decide
  · intro h
    have := congrArg List.length h
    simp at this

theorem dropWhile_eq_append (c : Char) (a b : List Char) (h : ∀ x ∈ a, x = c) :
    (a ++ b).dropWhile (fun x => x == c) = b.dropWhile (fun x => x == c) := by
  induction a with
  | nil => rfl
  | cons y a ih =>
    have hy : y = c := h y (by simp)
    simp [List.dropWhile_cons, hy, ih (fun x hx => h x (by simp [hx]))]

theorem dropTrailing_append_all (c : Char) (l seps : List Char) (h : ∀ x ∈ seps, x = c) :
    dropTrailing c (l ++ seps) = dropTrailing c l := by
  unfold dropTrailing
  rw [List.reverse_append,
    dropWhile_eq_append c _ _ (fun x hx => h x (List.mem_reverse.mp hx))]

theorem exists_snoc_of_all (seps : List Char) (hs : seps ≠ []) (hall : ∀ x ∈ seps, x = '/') :
    ∃ s2, seps = s2 ++ ['/'] := by
  rcases List.eq_nil_or_concat seps with h | ⟨s2, x, h⟩
  · exact absurd h hs
  · have : x = '/' := hall x (by simp [h])
    exact ⟨s2, by simp [h, this]⟩

/-- Filename and parent path of a path with a directory part: what precedes the separators
before the filename. -/
theorem parent_path_dir (dir : List Char) (c : Char) (seps name : List Char) (hc : c ≠ '/')
    (hs : seps ≠ []) (hall : ∀ x ∈ seps, x = '/') (hn : '/' ∉ name) :
    filename (dir ++ c :: (seps ++ name)) = name ∧
    parent_path (dir ++ c :: (seps ++ name)) = dir ++ [c] := by
  obtain ⟨s2, rfl⟩ := exists_snoc_of_all seps hs hall
  have e : dir ++ c :: (s2 ++ ['/'] ++ name) = (dir ++ c :: s2) ++ '/' :: name := by simp
  have e2 : (dir ++ c :: s2) ++ ['/'] = (dir ++ [c]) ++ (s2 ++ ['/']) := by simp
  refine ⟨by rw [filename, e, afterLast_append _ _ _ hn], ?_⟩
  unfold parent_path
  rw [has_relative_path_of_mem _ c (by simp) hc, e, uptoLast_append _ _ _ hn, e2,
    dropTrailing_append_all _ _ _ hall, dropTrailing_snoc_ne _ _ _ hc]
  simp

/-- Filename and parent path of a path directly under the root directory. -/
theorem parent_path_root (seps name : List Char) (hs : seps ≠ [])
    (hall : ∀ x ∈ seps, x = '/') (hn : '/' ∉ name) (hne : name ≠ []) :
    filename (seps ++ name) = name ∧ parent_path (seps ++ name) = ['/'] := by
  obtain ⟨a, n2, rfl⟩ := List.exists_cons_of_ne_nil hne
  have ha : a ≠ '/' := fun h => hn (by simp [h])
  obtain ⟨s2, rfl⟩ := exists_snoc_of_all seps hs hall
  have e : s2 ++ ['/'] ++ a :: n2 = s2 ++ '/' :: (a :: n2) := by simp
  refine ⟨by rw [filename, e, afterLast_append _ _ _ hn], ?_⟩
  unfold parent_path
  rw [has_relative_path_of_mem _ a (by simp) ha, e, uptoLast_append _ _ _ hn,
    dropTrailing_of_all _ _ hall]
  have : (s2 ++ '/' :: a :: n2).head? = some '/' := by
    cases s2 with
    | nil => rfl
    | cons b d2 => simp [hall b (by simp)]
  simp [this]

/-- Filename and parent path of a path without a separator. -/
theorem parent_path_plain (name : List Char) (hn : '/' ∉ name) :
    filename name = name ∧ parent_path name = [] := by
  refine ⟨afterLast_of_not_mem _ _ hn, ?_⟩
  unfold parent_path
  cases hrel : has_relative_path name with
  | false =>
    cases name with
    | nil => rfl
    | cons a n2 => exact absurd (has_relative_path_false _ hrel a (by simp)) (fun h => hn (by simp [h]))
  | true =>
    rw [uptoLast_of_not_mem _ _ hn]
    cases name with
    | nil => simp [dropTrailing]
    | cons a n2 =>
      have ha : a ≠ '/' := fun h => hn (by simp [h])
      simp [dropTrailing, ha]

/-- Filename and parent path of a path made of separators only. -/
theorem parent_path_slashes (seps : List Char) (hall : ∀ x ∈ seps, x = '/') :
    filename seps = [] ∧ parent_path seps = seps := by
  constructor
  · by_cases hs : seps = []
    · rw [hs]; rfl
    · obtain ⟨s2, rfl⟩ := exists_snoc_of_all seps hs hall
      have : s2 ++ ['/'] = s2 ++ '/' :: [] := rfl
      rw [filename, this, afterLast_append _ _ _ (by simp)]
  · unfold parent_path
    have : has_relative_path seps = false := by
      unfold has_relative_path
      rw [Bool.eq_false_iff]
      intro h
      obtain ⟨x, hx, hne⟩ := List.any_eq_true.mp h
      simp [hall x hx] at hne
    simp [this]

/-- Every filename has one of the two shapes that decide its stem. -/
theorem filename_shape (p : List Char) :
    ('.' ∉ filename p ∨ (∃ x, filename p = '.' :: x ∧ '.' ∉ x) ∨ filename p = ['.', '.']) ∨
    (∃ d x, filename p = d ++ '.' :: x ∧ d ≠ [] ∧ '.' ∉ x ∧ filename p ≠ ['.', '.']) := by
  by_cases hdot : '.' ∈ filename p
  · have hsplit := uptoLast_append_afterLast '.' (filename p)
    rcases uptoLast_nil_or_snoc '.' (filename p) with h | ⟨d, h⟩
    · rw [h, List.nil_append] at hsplit
      have hmem : '.' ∈ afterLast '.' (filename p) := by rw [hsplit]; exact hdot
      exact absurd hmem (not_mem_afterLast '.' (filename p))
    · rw [h] at hsplit
      have hf : filename p = d ++ '.' :: afterLast '.' (filename p) := by
        have h2 := hsplit.symm
        simp only [List.append_assoc, List.singleton_append] at h2
        exact h2
      by_cases hd : d = []
      · left; right; left
        exact ⟨afterLast '.' (filename p), by rw [hd] at hf; simpa using hf,
          not_mem_afterLast _ _⟩
      · by_cases hdd : filename p = ['.', '.']
        · left; right; right; exact hdd
        · right
          exact ⟨d, afterLast '.' (filename p), hf, hd, not_mem_afterLast _ _, hdd⟩
  · left; left; exact hdot

theorem operatorDiv_cases (P q : List Char) (hq : '/' ∉ q) (hne : q ≠ []) :
    (∀ d x, P = d ++ [x] → x ≠ '/' → operatorDiv P q = d ++ x :: '/' :: q) ∧
    ((∀ x ∈ P, x = '/') → operatorDiv P q = P ++ q) := by
  obtain ⟨a, q2, rfl⟩ := List.exists_cons_of_ne_nil hne
  have ha : a ≠ '/' := fun h => hq (by simp [h])
  constructor
  · intro d x hP hx
    subst hP
    have hfP : filename (d ++ [x]) ≠ [] := by
      intro h
      have := uptoLast_append_afterLast '/' (d ++ [x])
      rw [show afterLast '/' (d ++ [x]) = [] from h, List.append_nil] at this
      rcases uptoLast_nil_or_snoc '/' (d ++ [x]) with h2 | ⟨d2, h2⟩
      · rw [h2] at this; simp at this
      · rw [h2] at this
        have := List.append_inj_right' this (by simp)
        simp at this
        exact hx this.symm
    unfold operatorDiv
    simp [ha, hfP]
  · intro hall
    have hfP : filename P = [] := (parent_path_slashes P hall).1
    unfold operatorDiv
    simp [ha, hfP]

/-- C3 (path derivation). For every output path the derived path is determined: its final
component is the stem of the input followed by ".json" and its parent path names the
directory of the input (equal up to runs of separators, and equal as text whenever the
input has a relative path). The stem is the input filename with only its last extension
removed: what precedes the last period when that period is not the first character and the
filename is not "..", and the whole filename in every other case (no period, a period only
in front as in ".mp4", or ".."); one of the two cases always applies. Written out on the
shape of the input: a path with a directory part `dir` gives `dir/stem.json`, a path
directly under the root gives `/stem.json`, a path without separator gives `stem.json`, and a
path of separators only gets ".json" appended. The paths named in the claim are derived as
stated. -/
theorem getJsonPath_derivation (mp4_path : String) :
    filename (getJsonPath mp4_path).data = stem mp4_path.data ++ ".json".data ∧
    squeezeSlashes (parent_path (getJsonPath mp4_path).data)
      = squeezeSlashes (parent_path mp4_path.data) ∧
    (has_relative_path mp4_path.data = true →
      parent_path (getJsonPath mp4_path).data = parent_path mp4_path.data) ∧
    (∃ e, filename mp4_path.data = stem mp4_path.data ++ e ∧
      (e = [] ∨ ∃ x, e = '.' :: x ∧ '.' ∉ x)) ∧
    (∀ d x, filename mp4_path.data = d ++ '.' :: x → d ≠ [] → '.' ∉ x →
      filename mp4_path.data ≠ ['.', '.'] → stem mp4_path.data = d) ∧
    getJsonPath "/a/b/clip.mp4" = "/a/b/clip.json" ∧
    getJsonPath "/a/b/clip.v2.mp4" = "/a/b/clip.v2.json" ∧
    getJsonPath "/a/b/clip" = "/a/b/clip.json" ∧
    ('.' ∉ filename mp4_path.data ∨ (∃ x, filename mp4_path.data = '.' :: x ∧ '.' ∉ x) ∨
      filename mp4_path.data = ['.', '.'] → stem mp4_path.data = filename mp4_path.data) ∧
    (('.' ∉ filename mp4_path.data ∨ (∃ x, filename mp4_path.data = '.' :: x ∧ '.' ∉ x) ∨
        filename mp4_path.data = ['.', '.']) ∨
      (∃ d x, filename mp4_path.data = d ++ '.' :: x ∧ d ≠ [] ∧ '.' ∉ x ∧
        filename mp4_path.data ≠ ['.', '.'])) ∧
    (∀ (dir : List Char) (c : Char) (seps name : List Char),
      mp4_path.data = dir ++ c :: (seps ++ name) → c ≠ '/' → seps ≠ [] →
      (∀ x ∈ seps, x = '/') → '/' ∉ name →
      filename mp4_path.data = name ∧ parent_path mp4_path.data = dir ++ [c] ∧
      (getJsonPath mp4_path).data = dir ++ c :: '/' :: (stem mp4_path.data ++ ".json".data)) ∧
    (∀ seps name : List Char, mp4_path.data = seps ++ name → seps ≠ [] →
      (∀ x ∈ seps, x = '/') → '/' ∉ name → name ≠ [] →
      filename mp4_path.data = name ∧ parent_path mp4_path.data = ['/'] ∧
      (getJsonPath mp4_path).data = '/' :: (stem mp4_path.data ++ ".json".data)) ∧
    ('/' ∉ mp4_path.data →
      filename mp4_path.data = mp4_path.data ∧ parent_path mp4_path.data = [] ∧
      (getJsonPath mp4_path).data = stem mp4_path.data ++ ".json".data) ∧
    ((∀ x ∈ mp4_path.data, x = '/') →
      (getJsonPath mp4_path).data = mp4_path.data ++ ".json".data) ∧
    getJsonPath "/a/b/.mp4" = "/a/b/.mp4.json" ∧
    getJsonPath "a//b.mp4" = "a/b.json" ∧
    getJsonPath "/clip.mp4" = "/clip.json" ∧
    getJsonPath "clip.mp4" = "clip.json" := by
  obtain ⟨hq, hne⟩ := json_component mp4_path.data
  obtain ⟨h1, h2, h3⟩ :=
    parent_and_filename_of_operatorDiv (parent_path mp4_path.data)
      (stem mp4_path.data ++ ".json".data) (parent_path_cases _) hq hne
  obtain ⟨o1, o2⟩ :=
    operatorDiv_cases (parent_path mp4_path.data) (stem mp4_path.data ++ ".json".data) hq hne
  refine ⟨h1, h2, fun hrel => h3 (parent_path_cases_rel _ hrel), filename_eq_stem_append _,
    fun d x hf hd hx hdd => stem_of_extension _ d x hf hd hx hdd, by decide, by decide,
    by decide, stem_of_no_extension _, filename_shape _, ?_, ?_, ?_, ?_, by decide, by decide,
    by decide, by decide⟩
  · intro dir c seps name hp hc hs hall hn
    obtain ⟨f1, f2⟩ := parent_path_dir dir c seps name hc hs hall hn
    rw [← hp] at f1 f2
    exact ⟨f1, f2, o1 dir c f2 hc⟩
  · intro seps name hp hs hall hn hnn
    obtain ⟨f1, f2⟩ := parent_path_root seps name hs hall hn hnn
    rw [← hp] at f1 f2
    refine ⟨f1, f2, ?_⟩
    have e := o2 (by rw [f2]; simp)
    show operatorDiv (parent_path mp4_path.data) (stem mp4_path.data ++ ".json".data) = _
    rw [e, f2]
    rfl
  · intro hn
    obtain ⟨f1, f2⟩ := parent_path_plain mp4_path.data hn
    refine ⟨f1, f2, ?_⟩
    have e := o2 (by rw [f2]; simp)
    show operatorDiv (parent_path mp4_path.data) (stem mp4_path.data ++ ".json".data) = _
    rw [e, f2]
    rfl
  · intro hall
    obtain ⟨f1, f2⟩ := parent_path_slashes mp4_path.data hall
    have hst : stem mp4_path.data = [] := by
      rw [stem_of_no_extension _ (Or.inl (by rw [f1]; simp)), f1]
    have e := o2 (by rw [f2]; exact hall)
    show operatorDiv (parent_path mp4_path.data) (stem mp4_path.data ++ ".json".data) = _
    rw [e, f2, hst]
    rfl

/-- C3 at "/a/b/clip.v2.mp4", where only ".mp4" is cut and the parent path is kept as text,
and at "/a/b/.mp4", whose only period is in front and which keeps its whole filename. -/
theorem getJsonPath_derivation_witness :
    has_relative_path "/a/b/clip.v2.mp4".data = true ∧
    parent_path (getJsonPath "/a/b/clip.v2.mp4").data = "/a/b".data ∧
    stem "/a/b/clip.v2.mp4".data = "clip.v2".data ∧
    stem "/a/b/.mp4".data = ".mp4".data ∧
    (getJsonPath "/a/b/.mp4").data = "/a/b/.mp4.json".data ∧
    (getJsonPath "/a/b/clip.v2.mp4").data = "/a/b/clip.v2.json".data :=
  ⟨by decide,
   (getJsonPath_derivation "/a/b/clip.v2.mp4").2.2.1 (by decide),
   (getJsonPath_derivation "/a/b/clip.v2.mp4").2.2.2.2.1 "clip.v2".data "mp4".data
     (by decide) (by decide) (by decide) (by decide),
   ((getJsonPath_derivation "/a/b/.mp4").2.2.2.2.2.2.2.2.1
     (Or.inr (Or.inl ⟨"mp4".data, by decide, by decide⟩))).trans (by decide),
   (((getJsonPath_derivation "/a/b/.mp4").2.2.2.2.2.2.2.2.2.2.1 "/a/".data 'b' "/".data
     ".mp4".data (by decide) (by decide) (by decide) (by decide) (by decide)).2.2).trans
     (by decide),
   (((getJsonPath_derivation "/a/b/clip.v2.mp4").2.2.2.2.2.2.2.2.2.2.1 "/a/".data 'b' "/".data
     "clip.v2.mp4".data (by decide) (by decide) (by decide) (by decide) (by decide)).2.2).trans
     (by decide)⟩

/-! ## Lemmas on the ledger text -/

theorem writeRecords_eq (rest : List Int) (size i : Nat) (out : String)
    (hsize : size = i + rest.length) :
    VideoRecorder.writeRecords size i rest out
      = out ++ ledgerLines ((rest.enumFrom i).map (fun e => specRecord e.1 e.2)) := by
  induction rest generalizing i out with
  | nil => simp [VideoRecorder.writeRecords, ledgerLines]
  | cons t rest ih =>
    have hrec : VideoRecorder.recordText i t = specRecord i t := rfl
    cases rest with
    | nil =>
      have : ¬ i < size - 1 := by simp at hsize; omega
      simp [VideoRecorder.writeRecords, ledgerLines, this, hrec, String.append_assoc]
    | cons t2 rest2 =>
      have hlt : i < size - 1 := by simp at hsize; omega
      have := ih (i + 1) (out ++ specRecord i t ++ "," ++ "\n") (by simp at hsize ⊢; omega)
      rw [VideoRecorder.writeRecords]
      simp only [hlt, if_true, hrec]
      rw [this]
      simp [ledgerLines, List.enumFrom_cons, String.append_assoc]

/-- The text the code writes is the ledger file of the specification. -/
theorem jsonText_eq_spec (timestamps : List Int) :
    VideoRecorder.jsonText timestamps = ledgerFileSpec timestamps := by
  unfold VideoRecorder.jsonText ledgerFileSpec specRecords List.enum
  rw [writeRecords_eq timestamps timestamps.length 0 "[\n" (by simp)]

theorem specRecords_length (ledger : List Int) : (specRecords ledger).length = ledger.length := by
  simp [specRecords]

theorem specRecords_getElem (ledger : List Int) (i : Nat) (h : i < ledger.length) :
    (specRecords ledger)[i]? = some (specRecord i ledger[i]) := by
  simp [specRecords, List.getElem?_map, List.getElem?_enum, h]

/-! ## Decoding the ledger text -/

theorem digitChar_isDigit (k : Nat) (h : k < 10) :
    (Nat.digitChar k).isDigit = true ∧ digitValue (Nat.digitChar k) = k := by
  interval_cases k <;> decide

/-- The decimal digits the printer produces: a non-empty run of digit characters whose value,
read from the left, is the number printed. -/
theorem toDigitsCore_spec (fuel n : Nat) (ds : List Char) (h : n < fuel) :
    ∃ pre, Nat.toDigitsCore 10 fuel n ds = pre ++ ds ∧ pre ≠ [] ∧
      (∀ c ∈ pre, c.isDigit = true) ∧
      pre.foldl (fun a c => a * 10 + digitValue c) 0 = n := by
  induction fuel generalizing n ds with
  | zero => omega
  | succ fuel ih =>
    have hd := digitChar_isDigit (n % 10) (Nat.mod_lt _ (by decide))
    unfold Nat.toDigitsCore
    simp only
    by_cases h0 : n / 10 = 0
    · rw [if_pos h0]
      refine ⟨[Nat.digitChar (n % 10)], rfl, by simp, by simpa using hd.1, ?_⟩
      simp only [List.foldl_cons, List.foldl_nil, hd.2]
      omega
    · rw [if_neg h0]
      obtain ⟨pre, h1, h2, h3, h4⟩ := ih (n / 10) (Nat.digitChar (n % 10) :: ds) (by omega)
      refine ⟨pre ++ [Nat.digitChar (n % 10)], by rw [h1]; simp, by simp, ?_, ?_⟩
      · intro c hc
        rcases List.mem_append.mp hc with hc | hc
        · exact h3 c hc
        · simp at hc; rw [hc]; exact hd.1
      · rw [List.foldl_append, h4]
        simp only [List.foldl_cons, List.foldl_nil, hd.2]
        omega

theorem natRepr_data (n : Nat) :
    ∃ d ds, (toString n).data = d :: ds ∧ d.isDigit = true ∧ (∀ c ∈ ds, c.isDigit = true) ∧
      ds.foldl (fun a c => a * 10 + digitValue c) (digitValue d) = n := by
  obtain ⟨pre, h1, h2, h3, h4⟩ := toDigitsCore_spec (n + 1) n [] (by omega)
  obtain ⟨d, ds, rfl⟩ := List.exists_cons_of_ne_nil h2
  refine ⟨d, ds, ?_, h3 d (by simp), fun c hc => h3 c (by simp [hc]), ?_⟩
  · show (Nat.repr n).data = _
    unfold Nat.repr Nat.toDigits
    rw [h1]; simp [List.asString]
  · simpa using h4

theorem lex_digits (ds : List Char) (hds : ∀ c ∈ ds, c.isDigit = true) (neg : Bool) (acc : Nat)
    (rest : List Char) :
    lex (.inNum neg acc) (ds ++ rest)
      = lex (.inNum neg (ds.foldl (fun a c => a * 10 + digitValue c) acc)) rest := by
  induction ds generalizing acc with
  | nil => rfl
  | cons d ds ih =>
    have hd : d.isDigit = true := hds d (by simp)
    simp only [List.cons_append, lex, hd, if_true, List.foldl_cons]
    exact ih (fun c hc => hds c (by simp [hc])) _

theorem lex_idle_digit (d : Char) (hd : d.isDigit = true) (cs : List Char) :
    lex .idle (d :: cs) = lex (.inNum false (digitValue d)) cs := by
  have hsp : ¬ (d = ' ' ∨ d = '\n') := by rintro (h | h) <;> (rw [h] at hd; revert hd; decide)
  have e1 : d ≠ '[' := by rintro h; rw [h] at hd; revert hd; decide
  have e2 : d ≠ ']' := by rintro h; rw [h] at hd; revert hd; decide
  have e3 : d ≠ '\x7b' := by rintro h; rw [h] at hd; revert hd; decide
  have e4 : d ≠ '\x7d' := by rintro h; rw [h] at hd; revert hd; decide
  have e5 : d ≠ ':' := by rintro h; rw [h] at hd; revert hd; decide
  have e6 : d ≠ ',' := by rintro h; rw [h] at hd; revert hd; decide
  have e7 : d ≠ '\x22' := by rintro h; rw [h] at hd; revert hd; decide
  have e8 : d ≠ '-' := by rintro h; rw [h] at hd; revert hd; decide
  simp only [lex, hsp, e1, e2, e3, e4, e5, e6, e7, e8, hd, if_false, if_true]

/-- Tokenizing a printed natural number that is followed by a comma. -/
theorem lex_nat_comma (n : Nat) (rest : List Char) :
    lex .idle ((toString n).data ++ ',' :: rest)
      = (lex .idle rest).map (fun ts => Tok.num (n : Int) :: Tok.comma :: ts) := by
  obtain ⟨d, ds, h1, h2, h3, h4⟩ := natRepr_data n
  rw [h1, List.cons_append, lex_idle_digit d h2, lex_digits ds h3, h4]
  simp [lex, signed, Option.map_map, Function.comp_def]

/-- Tokenizing a printed integer that is followed by a blank. -/
theorem lex_int_space (t : Int) (rest : List Char) :
    lex .idle ((toString t).data ++ ' ' :: rest)
      = (lex .idle rest).map (fun ts => Tok.num t :: ts) := by
  cases t with
  | ofNat m =>
    obtain ⟨d, ds, h1, h2, h3, h4⟩ := natRepr_data m
    show lex .idle ((toString m).data ++ ' ' :: rest) = _
    rw [h1, List.cons_append, lex_idle_digit d h2, lex_digits ds h3, h4]
    simp [lex, signed]
  | negSucc m =>
    obtain ⟨d, ds, h1, h2, h3, h4⟩ := natRepr_data (m + 1)
    show lex .idle (("-" ++ toString (m + 1)).data ++ ' ' :: rest) = _
    rw [String.data_append, h1]
    have : "-".data = ['-'] := rfl
    rw [this]
    simp only [List.singleton_append, List.cons_append, lex, h2, if_true]
    have hm : ¬ ('-' = ' ' ∨ '-' = '\n') := by decide
    simp only [hm, if_false]
    show lex (.inNum true (digitValue d)) (ds ++ ' ' :: rest) = _
    rw [lex_digits ds h3, h4]
    have hv : signed true (m + 1) = Int.negSucc m := by
      simp only [signed, if_true]; exact (Int.negSucc_eq m).symm ▸ by push_cast; ring
    simp only [lex]
    rw [if_neg (by decide), if_pos (Or.inl trivial), hv]

theorem lex_space (cs : List Char) : lex .idle (' ' :: cs) = lex .idle cs := rfl

theorem lex_newline (cs : List Char) : lex .idle ('\n' :: cs) = lex .idle cs := rfl

theorem lex_lbracket (cs : List Char) :
    lex .idle ('[' :: cs) = (lex .idle cs).map (fun ts => Tok.lbracket :: ts) := rfl

theorem lex_rbracket (cs : List Char) :
    lex .idle (']' :: cs) = (lex .idle cs).map (fun ts => Tok.rbracket :: ts) := rfl

theorem lex_lbrace (cs : List Char) :
    lex .idle ('\x7b' :: cs) = (lex .idle cs).map (fun ts => Tok.lbrace :: ts) := rfl

theorem lex_rbrace (cs : List Char) :
    lex .idle ('\x7d' :: cs) = (lex .idle cs).map (fun ts => Tok.rbrace :: ts) := rfl

theorem lex_colon (cs : List Char) :
    lex .idle (':' :: cs) = (lex .idle cs).map (fun ts => Tok.colon :: ts) := rfl

theorem lex_comma (cs : List Char) :
    lex .idle (',' :: cs) = (lex .idle cs).map (fun ts => Tok.comma :: ts) := rfl

theorem lex_frame (cs : List Char) :
    lex .idle ('\x22' :: 'f' :: 'r' :: 'a' :: 'm' :: 'e' :: '\x22' :: cs)
      = (lex .idle cs).map (fun ts => Tok.str "frame".data :: ts) := rfl

theorem lex_timestamp_ns (cs : List Char) :
    lex .idle ('\x22' :: 't' :: 'i' :: 'm' :: 'e' :: 's' :: 't' :: 'a' :: 'm' :: 'p' :: '_' ::
      'n' :: 's' :: '\x22' :: cs)
      = (lex .idle cs).map (fun ts => Tok.str "timestamp_ns".data :: ts) := rfl

/-- Tokenizing one record of the ledger text. -/
theorem lex_record (i : Nat) (t : Int) (rest : List Char) :
    lex .idle ((specRecord i t).data ++ rest)
      = (lex .idle rest).map (fun ts => recordToks i t ++ ts) := by
  have p1 : "  \x7b \"frame\": ".data = [' ', ' ', '\x7b', ' ', '\x22', 'f', 'r', 'a', 'm', 'e',
      '\x22', ':', ' '] := by decide
  have p2 : ", \"timestamp_ns\": ".data = [',', ' ', '\x22', 't', 'i', 'm', 'e', 's', 't', 'a',
      'm', 'p', '_', 'n', 's', '\x22', ':', ' '] := by decide
  have p3 : " \x7d".data = [' ', '\x7d'] := by decide
  unfold specRecord
  simp only [String.data_append, p1, p2, p3, List.append_assoc, List.cons_append,
    List.nil_append]
  rw [lex_space, lex_space, lex_lbrace, lex_space, lex_frame, lex_colon, lex_space,
    lex_nat_comma, lex_space, lex_timestamp_ns, lex_colon, lex_space, lex_int_space,
    lex_rbrace]
  cases lex .idle rest <;> rfl

/-- Tokenizing the record lines of the ledger text. -/
theorem lex_lines (l : List (Nat × Int)) (rest : List Char) :
    lex .idle ((ledgerLines (l.map (fun e => specRecord e.1 e.2))).data ++ rest)
      = (lex .idle rest).map (fun ts => linesToks l ++ ts) := by
  induction l with
  | nil =>
    simp only [List.map_nil, ledgerLines, linesToks, List.nil_append]
    cases lex .idle rest <;> rfl
  | cons r l ih =>
    cases l with
    | nil =>
      simp only [List.map_cons, List.map_nil, ledgerLines, linesToks, String.data_append]
      rw [List.append_assoc, lex_record, List.singleton_append, lex_newline]
    | cons r2 more =>
      simp only [List.map_cons, ledgerLines, linesToks, String.data_append] at ih ⊢
      simp only [List.append_assoc, List.singleton_append]
      rw [lex_record]
      simp only [List.cons_append, List.nil_append]
      rw [lex_comma, lex_newline, ih]
      cases lex .idle rest <;> simp

theorem parseRecords_linesToks (r : Nat × Int) (l : List (Nat × Int)) :
    parseRecords (linesToks (r :: l) ++ [Tok.rbracket]) = some (r :: l) := by
  induction l generalizing r with
  | nil => simp [linesToks, recordToks, parseRecords]
  | cons r2 more ih =>
    have := ih r2
    simp only [linesToks, recordToks, List.cons_append, List.nil_append, parseRecords] at this ⊢
    simp [this]

/-- The ledger file of the specification decodes to its records: entry `i` of the ledger
with frame index `i`, in order. -/
theorem decodeLedger_spec (ledger : List Int) :
    decodeLedger (ledgerFileSpec ledger) = some ledger.enum := by
  have h1 : "[\n".data = ['[', '\n'] := rfl
  have h2 : "]\n".data = [']', '\n'] := rfl
  have hmap : specRecords ledger = ledger.enum.map (fun e => specRecord e.1 e.2) := rfl
  have hlex : lex .idle (ledgerFileSpec ledger).data
      = some (Tok.lbracket :: (linesToks ledger.enum ++ [Tok.rbracket])) := by
    unfold ledgerFileSpec
    rw [String.data_append, String.data_append, h1, h2, hmap]
    simp only [List.cons_append, List.nil_append, List.append_assoc]
    rw [lex_lbracket, lex_newline, lex_lines, lex_rbracket, lex_newline]
    rfl
  unfold decodeLedger
  rw [hlex]
  cases he : ledger.enum with
  | nil => rfl
  | cons r l =>
    have hne : linesToks (r :: l) ++ [Tok.rbracket] ≠ [Tok.rbracket] := by
      cases l <;> simp [linesToks, recordToks]
    have hp := parseRecords_linesToks r l
    generalize linesToks (r :: l) ++ [Tok.rbracket] = toks at hne hp
    match toks, hne, hp with
    | [], _, hp => simp [parseRecords] at hp
    | [t], hne, hp =>
      cases t <;> simp [parseRecords] at hp hne ⊢
    | t :: t2 :: more, _, hp =>
      cases t <;> simp [parseRecords] at hp ⊢
      exact hp

/-! ## The capture loop -/

theorem framed_cons_empty (t : Tick) (ts : List Tick) (h : t.frame.empty = true) :
    framed (t :: ts) = framed ts := by
  simp [framed, h]

theorem framed_cons_frame (t : Tick) (ts : List Tick) (h : t.frame.empty = false) :
    framed (t :: ts) = t :: framed ts := by
  simp [framed, h]

theorem filter_progress_empty (m : String) (evs : List Event) :
    (Event.capRead :: Event.cerr m :: evs).filter (fun e => !e.isProgress)
      = Event.capRead :: Event.cerr m :: evs.filter (fun e => !e.isProgress) := rfl

theorem filter_progress_frame (f : Mat) (evs : List Event) :
    ([Event.capRead, Event.clockRead, Event.writerWrite f, Event.imshow f, Event.waitKey]
        ++ evs).filter (fun e => !e.isProgress)
      = [Event.capRead, Event.clockRead, Event.writerWrite f, Event.imshow f, Event.waitKey]
        ++ evs.filter (fun e => !e.isProgress) := rfl

theorem filter_progress_frame_line (f : Mat) (n : Int) (evs : List Event) :
    ([Event.capRead, Event.clockRead, Event.writerWrite f, Event.imshow f, Event.waitKey,
        Event.progress n] ++ evs).filter (fun e => !e.isProgress)
      = [Event.capRead, Event.clockRead, Event.writerWrite f, Event.imshow f, Event.waitKey]
        ++ evs.filter (fun e => !e.isProgress) := rfl

theorem flatMap_iteration_cons (u : Tick) (l : List Tick) (t : Tick) :
    (u :: l ++ [t]).flatMap iterationEvents
      = iterationEvents u ++ (l ++ [t]).flatMap iterationEvents := by
  simp

theorem iterationEvents_empty (u : Tick) (h : u.frame.empty = true) :
    iterationEvents u = [Event.capRead, Event.cerr "Warning: Empty frame captured"] := by
  simp [iterationEvents, h]

theorem iterationEvents_frame (u : Tick) (h : u.frame.empty = false) :
    iterationEvents u = [Event.capRead, Event.clockRead, Event.writerWrite u.frame,
      Event.imshow u.frame, Event.waitKey] := by
  simp [iterationEvents, h]

/-- The capture loop on a supply of ticks whose first stopping tick is `t`: it returns at `t`,
leaving the later ticks unconsumed, and it has advanced ledger, sink and frame counter by
exactly the framed ticks up to and including `t`. -/
theorem captureLoop_stops (pre : List Tick) (t : Tick) (rest : List Tick) (s : VideoRecorder)
    (hrec : s.is_recording = true) (hpre : ∀ u ∈ pre, u.stops = false) (ht : t.stops = true)
    (hcnt : s.frame_count + (framed pre).length < INT_MAX) :
    ∃ s' evs, VideoRecorder.captureLoop s (pre ++ t :: rest) = Outcome.done s' rest ∧
      s'.timestamps = s.timestamps ++ (framed (pre ++ [t])).map Tick.now ∧
      s'.video = (if s.writerOpened then s.video ++ (framed (pre ++ [t])).map Tick.frame
        else s.video) ∧
      s'.frame_count = s.frame_count + (framed (pre ++ [t])).length ∧
      s'.is_recording = true ∧ s'.capOpened = s.capOpened ∧ s'.writerOpened = s.writerOpened ∧
      s'.output_path = s.output_path ∧ s'.json_path = s.json_path ∧ s'.fs = s.fs ∧
      s'.writable = s.writable ∧
      s'.log = s.log ++ evs ∧
      evs.count Event.capRead = pre.length + 1 ∧
      evs.count Event.clockRead = (framed (pre ++ [t])).length ∧
      evs.count Event.waitKey = (framed (pre ++ [t])).length ∧
      evs.count Event.writerRelease = 0 ∧
      (∀ p c, evs.count (Event.fileWrite p c) = 0) ∧
      evs.filter (fun e => !e.isProgress) = (pre ++ [t]).flatMap iterationEvents := by
  have htf : t.frame.empty = false := by
    unfold Tick.stops at ht; cases h : t.frame.empty <;> simp_all
  have htk : VideoRecorder.isStopKey t.key = true := by
    unfold Tick.stops at ht; simp_all
  induction pre generalizing s with
  | nil =>
    have hc : ¬ s.frame_count ≥ INT_MAX := by simp [framed] at hcnt; omega
    refine ⟨afterFrame s t, [Event.capRead, Event.clockRead, Event.writerWrite t.frame,
      Event.imshow t.frame, Event.waitKey], ?_, ?_⟩
    · simp only [List.nil_append, VideoRecorder.captureLoop, hrec, htf, htk,
        VideoRecorder.emit, Bool.not_true, Bool.false_eq_true, if_false, if_true, hc]
      simp [afterFrame, hrec]
    · refine ⟨?_, ?_, ?_, ?_, ?_, ?_, ?_, ?_, ?_, ?_, ?_, ?_, ?_, ?_, ?_, ?_⟩
      · simp [afterFrame, framed, htf]
      · simp [afterFrame, framed, htf]
      · simp [afterFrame, framed, htf]
      · simp [afterFrame, hrec]
      · rfl
      · rfl
      · rfl
      · rfl
      · rfl
      · rfl
      · rfl
      · simp [List.count_cons]
      · simp [framed, htf, List.count_cons]
      · simp [framed, htf, List.count_cons]
      · simp [List.count_cons]
      · refine ⟨fun p c => by simp [List.count_cons], ?_⟩
        rw [List.nil_append, List.flatMap_cons, iterationEvents_frame t htf]
        rfl
  | cons u pre ih =>
    have hu : u.stops = false := hpre u (by simp)
    have hpre2 : ∀ v ∈ pre, v.stops = false := fun v hv => hpre v (by simp [hv])
    cases hue : u.frame.empty with
    | true =>
      have hf : framed (u :: pre) = framed pre := framed_cons_empty u pre hue
      have hf2 : framed (u :: pre ++ [t]) = framed (pre ++ [t]) :=
        framed_cons_empty u (pre ++ [t]) hue
      obtain ⟨s', evs, h1, h2, h3, h4, h5, h6, h7, h8, h9, h10, h11, h12, h13, h14, h15, h16,
        h17, h18⟩ := ih ((s.emit Event.capRead).emit (Event.cerr "Warning: Empty frame captured"))
          hrec hpre2 (by rw [hf] at hcnt; exact hcnt)
      refine ⟨s', Event.capRead :: Event.cerr "Warning: Empty frame captured" :: evs, ?_, ?_⟩
      · simp only [List.cons_append, VideoRecorder.captureLoop, hrec, hue, Bool.not_true,
          Bool.false_eq_true, if_false, if_true]
        exact h1
      · rw [hf2]
        simp only [VideoRecorder.emit] at h2 h3 h4 h6 h7 h8 h9 h10 h11 h12
        refine ⟨h2, h3, h4, h5, h6, h7, h8, h9, h10, h11, ?_, ?_, ?_, ?_, ?_, ?_, ?_⟩
        · rw [h12]; simp
        · simp [List.count_cons, h13]
        · simp [List.count_cons, h14]
        · simp [List.count_cons, h15]
        · simp [List.count_cons, h16]
        · intro p c; simp [List.count_cons, h17 p c]
        · rw [filter_progress_empty, h18, flatMap_iteration_cons, iterationEvents_empty u hue]
          rfl
    | false =>
      have hf : framed (u :: pre) = u :: framed pre := framed_cons_frame u pre hue
      have hf2 : framed (u :: pre ++ [t]) = u :: framed (pre ++ [t]) :=
        framed_cons_frame u (pre ++ [t]) hue
      have huk : VideoRecorder.isStopKey u.key = false := by
        unfold Tick.stops at hu; simp_all
      have hc : ¬ s.frame_count ≥ INT_MAX := by rw [hf] at hcnt; simp at hcnt; omega
      have hcnt2 : s.frame_count + 1 + (framed pre).length < INT_MAX := by
        rw [hf] at hcnt; simp at hcnt; omega
      -- the state after the body of the iteration, up to the progress line
      let s1 : VideoRecorder := afterFrame s u
      by_cases hp : Int.tmod (s.frame_count + 1) 30 = 0
      · obtain ⟨s', evs, h1, h2, h3, h4, h5, h6, h7, h8, h9, h10, h11, h12, h13, h14, h15, h16,
          h17, h18⟩ := ih (s1.emit (Event.progress (s.frame_count + 1))) hrec hpre2 hcnt2
        refine ⟨s', [Event.capRead, Event.clockRead, Event.writerWrite u.frame,
          Event.imshow u.frame, Event.waitKey, Event.progress (s.frame_count + 1)] ++ evs, ?_, ?_⟩
        · simp only [List.cons_append, VideoRecorder.captureLoop, hrec, hue, huk, hc, hp,
            VideoRecorder.emit, Bool.not_true, Bool.false_eq_true, if_false, if_true,
            List.append_assoc, List.singleton_append]
          simpa [s1, afterFrame, VideoRecorder.emit, hrec] using h1
        · rw [hf2]
          simp only [VideoRecorder.emit, s1, afterFrame] at h2 h3 h4 h6 h7 h8 h9 h10 h11 h12
          refine ⟨by rw [h2]; simp, ?_, by rw [h4]; simp; ring, h5, h6, h7, h8, h9, h10, h11,
            ?_, ?_, ?_, ?_, ?_, ?_, ?_⟩
          · rw [h3]; cases s.writerOpened <;> simp
          · rw [h12]; simp
          · simp [List.count_cons, h13]
          · simp [List.count_cons, h14]
          · simp [List.count_cons, h15]
          · simp [List.count_cons, h16]
          · intro p c; simp [List.count_cons, h17 p c]
          · rw [filter_progress_frame_line, h18, flatMap_iteration_cons,
              iterationEvents_frame u hue]
      · obtain ⟨s', evs, h1, h2, h3, h4, h5, h6, h7, h8, h9, h10, h11, h12, h13, h14, h15, h16,
          h17, h18⟩ := ih s1 hrec hpre2 hcnt2
        refine ⟨s', [Event.capRead, Event.clockRead, Event.writerWrite u.frame,
          Event.imshow u.frame, Event.waitKey] ++ evs, ?_, ?_⟩
        · simp only [List.cons_append, VideoRecorder.captureLoop, hrec, hue, huk, hc, hp,
            VideoRecorder.emit, Bool.not_true, Bool.false_eq_true, if_false, if_true,
            List.append_assoc, List.singleton_append]
          simpa [s1, afterFrame, VideoRecorder.emit, hrec] using h1
        · rw [hf2]
          simp only [VideoRecorder.emit, s1, afterFrame] at h2 h3 h4 h6 h7 h8 h9 h10 h11 h12
          refine ⟨by rw [h2]; simp, ?_, by rw [h4]; simp; ring, h5, h6, h7, h8, h9, h10, h11,
            ?_, ?_, ?_, ?_, ?_, ?_, ?_⟩
          · rw [h3]; cases s.writerOpened <;> simp
          · rw [h12]; simp
          · simp [List.count_cons, h13]
          · simp [List.count_cons, h14]
          · simp [List.count_cons, h15]
          · simp [List.count_cons, h16]
          · intro p c; simp [List.count_cons, h17 p c]
          · rw [filter_progress_frame, h18, flatMap_iteration_cons,
              iterationEvents_frame u hue]

theorem captureLoop_never_done (ticks : List Tick) (s : VideoRecorder)
    (hrec : s.is_recording = true) (h : ∀ u ∈ ticks, u.stops = false) :
    ∀ s' rest, VideoRecorder.captureLoop s ticks ≠ Outcome.done s' rest := by
  induction ticks generalizing s with
  | nil => intro s' rest; simp [VideoRecorder.captureLoop, hrec]
  | cons u ticks ih =>
    intro s' rest
    have hu : u.stops = false := h u (by simp)
    have h2 : ∀ v ∈ ticks, v.stops = false := fun v hv => h v (by simp [hv])
    cases hue : u.frame.empty with
    | true =>
      simp only [VideoRecorder.captureLoop, hrec, hue, Bool.not_true, Bool.false_eq_true,
        if_false, if_true]
      exact ih _ (by simp [VideoRecorder.emit, hrec]) h2 s' rest
    | false =>
      have huk : VideoRecorder.isStopKey u.key = false := by
        unfold Tick.stops at hu; simp_all
      simp only [VideoRecorder.captureLoop, hrec, hue, huk, Bool.not_true, Bool.false_eq_true,
        if_false]
      split
      · simp
      · exact ih _ (by rw [apply_ite VideoRecorder.is_recording]; simp [VideoRecorder.emit, hrec])
          h2 s' rest

/-! ## Lemmas on stopRecording and the flush -/

theorem save_fields (s : VideoRecorder) :
    s.saveTimestampsToJson.timestamps = s.timestamps ∧
    s.saveTimestampsToJson.frame_count = s.frame_count ∧
    s.saveTimestampsToJson.video = s.video ∧
    s.saveTimestampsToJson.capOpened = s.capOpened ∧
    s.saveTimestampsToJson.writerOpened = s.writerOpened ∧
    s.saveTimestampsToJson.is_recording = s.is_recording ∧
    s.saveTimestampsToJson.output_path = s.output_path ∧
    s.saveTimestampsToJson.json_path = s.json_path ∧
    s.saveTimestampsToJson.writable = s.writable := by
  unfold VideoRecorder.saveTimestampsToJson
  split <;> simp [VideoRecorder.emit]

theorem save_fs (s : VideoRecorder) :
    s.saveTimestampsToJson.fs =
      if s.writable s.json_path = true then
        fun p => if p = s.json_path then some (ledgerFileSpec s.timestamps) else s.fs p
      else s.fs := by
  unfold VideoRecorder.saveTimestampsToJson
  cases h : s.writable s.json_path <;> simp [VideoRecorder.emit, jsonText_eq_spec]

theorem save_log (s : VideoRecorder) :
    s.saveTimestampsToJson.log = s.log ++
      [if s.writable s.json_path = true then Event.fileWrite s.json_path (ledgerFileSpec s.timestamps)
       else Event.cerr ("Error: Cannot create JSON file " ++ s.json_path)] := by
  unfold VideoRecorder.saveTimestampsToJson
  cases h : s.writable s.json_path <;> simp [VideoRecorder.emit, jsonText_eq_spec]

theorem stop_fields (s : VideoRecorder) :
    s.stopRecording.timestamps = s.timestamps ∧
    s.stopRecording.frame_count = s.frame_count ∧
    s.stopRecording.video = s.video ∧
    s.stopRecording.capOpened = s.capOpened ∧
    s.stopRecording.writerOpened = false ∧
    s.stopRecording.is_recording = false ∧
    s.stopRecording.output_path = s.output_path ∧
    s.stopRecording.json_path = s.json_path ∧
    s.stopRecording.writable = s.writable := by
  unfold VideoRecorder.stopRecording
  simp only [(save_fields _).1, (save_fields _).2.1, (save_fields _).2.2.1,
    (save_fields _).2.2.2.1, (save_fields _).2.2.2.2.1, (save_fields _).2.2.2.2.2.1,
    (save_fields _).2.2.2.2.2.2.1, (save_fields _).2.2.2.2.2.2.2.1,
    (save_fields _).2.2.2.2.2.2.2.2]
  cases s.writerOpened <;> simp [VideoRecorder.emit]

theorem stop_fs (s : VideoRecorder) :
    s.stopRecording.fs =
      if s.writable s.json_path = true then
        fun p => if p = s.json_path then some (ledgerFileSpec s.timestamps) else s.fs p
      else s.fs := by
  unfold VideoRecorder.stopRecording
  rw [save_fs]
  cases s.writerOpened <;> simp [VideoRecorder.emit]

theorem stop_log (s : VideoRecorder) :
    s.stopRecording.log = s.log ++
      ((if s.writerOpened = true then [Event.writerRelease] else []) ++
        [Event.destroyAllWindows,
         if s.writable s.json_path = true then
           Event.fileWrite s.json_path (ledgerFileSpec s.timestamps)
         else Event.cerr ("Error: Cannot create JSON file " ++ s.json_path)]) := by
  unfold VideoRecorder.stopRecording
  rw [save_log]
  cases s.writerOpened <;> simp [VideoRecorder.emit]

/-! ## Lemmas on initialize -/

theorem passedRates_append (a b : List Event) :
    passedRates (a ++ b) = passedRates a ++ passedRates b := by
  induction a with
  | nil => rfl
  | cons e a ih => cases e <;> simp [passedRates, ih]

theorem init_fields (s : VideoRecorder) (output_file : String) (camera_id : Int)
    (env : InitEnv) :
    (s.initializeRecorder output_file camera_id env).1.timestamps = s.timestamps ∧
    (s.initializeRecorder output_file camera_id env).1.json_path = getJsonPath output_file ∧
    (s.initializeRecorder output_file camera_id env).1.writable = s.writable ∧
    (s.initializeRecorder output_file camera_id env).1.fs = s.fs ∧
    (s.initializeRecorder output_file camera_id env).1.frame_count = s.frame_count ∧
    (s.initializeRecorder output_file camera_id env).1.is_recording = s.is_recording := by
  refine ⟨?_, ?_, ?_, ?_, ?_, ?_⟩ <;>
    simp only [VideoRecorder.initializeRecorder, VideoRecorder.emit, apply_ite Prod.fst,
      apply_ite VideoRecorder.timestamps, apply_ite VideoRecorder.json_path,
      apply_ite VideoRecorder.writable, apply_ite VideoRecorder.fs,
      apply_ite VideoRecorder.frame_count, apply_ite VideoRecorder.is_recording, ite_self]

theorem init_fresh (s : VideoRecorder) (output_file : String) (camera_id : Int)
    (env : InitEnv) (hc : s.capOpened = false) (hw : s.writerOpened = false) :
    s.initializeRecorder output_file camera_id env =
      if env.capOpens = false then
        ({ s with output_path := output_file, json_path := getJsonPath output_file,
                  log := s.log ++ [Event.capOpen camera_id,
                    Event.cerr ("Error: Cannot open camera " ++ toString camera_id)] },
          InitResult.returned false)
      else if parent_path output_file.data = [] then
        ({ s with output_path := output_file, json_path := getJsonPath output_file,
                  capOpened := true, writerOpened := env.writerOpens,
                  video := if env.writerOpens = true then [] else s.video,
                  log := s.log ++ ([Event.capOpen camera_id,
                    Event.writerOpen output_file
                      (if Double.le env.fps (Double.finite 0) = true then Double.finite 30
                       else env.fps) env.frame_width env.frame_height] ++
                    if env.writerOpens = true then []
                    else [Event.cerr ("Error: Cannot open video writer for " ++ output_file)]) },
          InitResult.returned env.writerOpens)
      else if env.dirsCreated = false then
        ({ s with output_path := output_file, json_path := getJsonPath output_file,
                  capOpened := true,
                  log := s.log ++ [Event.capOpen camera_id,
                    Event.createDirectories (String.mk (parent_path output_file.data))] },
          InitResult.threw)
      else
        ({ s with output_path := output_file, json_path := getJsonPath output_file,
                  capOpened := true, writerOpened := env.writerOpens,
                  video := if env.writerOpens = true then [] else s.video,
                  log := s.log ++ ([Event.capOpen camera_id,
                    Event.createDirectories (String.mk (parent_path output_file.data)),
                    Event.writerOpen output_file
                      (if Double.le env.fps (Double.finite 0) = true then Double.finite 30
                       else env.fps) env.frame_width env.frame_height] ++
                    if env.writerOpens = true then []
                    else [Event.cerr ("Error: Cannot open video writer for " ++ output_file)]) },
          InitResult.returned env.writerOpens) := by
  unfold VideoRecorder.initializeRecorder
  simp only [VideoRecorder.emit, hc, hw, Bool.false_eq_true, if_false]
  cases hco : env.capOpens
  · simp only [Bool.not_false, if_true, List.append_assoc, List.singleton_append]
  · simp only [Bool.not_true, Bool.false_eq_true, if_false]
    by_cases hd : parent_path output_file.data = []
    · simp only [hd, ne_eq, not_true_eq_false, false_and, if_false, if_true]
      cases hwo : env.writerOpens <;> simp [hw]
    · simp only [hd, ne_eq, not_false_eq_true, true_and, if_true, if_false]
      cases hdc : env.dirsCreated
      · simp
      · cases hwo : env.writerOpens <;> simp [hw]

/-- What a failed `initialize` leaves on a session that held neither source nor sink. -/
theorem init_failed (s : VideoRecorder) (output_file : String) (camera_id : Int)
    (env : InitEnv) (hc : s.capOpened = false) (hw : s.writerOpened = false)
    (hfail : (s.initializeRecorder output_file camera_id env).2 = InitResult.returned false) :
    (s.initializeRecorder output_file camera_id env).1.writerOpened = false ∧
    (s.initializeRecorder output_file camera_id env).1.capOpened = env.capOpens ∧
    (env.capOpens = true → env.writerOpens = false) ∧
    (newEvents s (s.initializeRecorder output_file camera_id env).1).count Event.capRelease
      = 0 ∧
    (env.capOpens = false →
      passedRates (newEvents s (s.initializeRecorder output_file camera_id env).1) = []) := by
  rw [init_fresh s output_file camera_id env hc hw] at hfail
  refine ⟨?_, ?_, ?_, ?_, ?_⟩ <;>
  · try rw [init_fresh s output_file camera_id env hc hw]
    split_ifs at hfail ⊢ with h1 h2 h3 <;>
      simp_all [newEvents, passedRates, List.count_cons]


/-! ## startRecording on a supply of ticks that reaches a stopping tick -/

/-- Shared description of a run of `startRecording` that meets its first stopping tick `t`:
the loop returns state `s1` at `t` and `stopRecording` is applied to it. -/
theorem startRecording_stops (s : VideoRecorder) (pre : List Tick) (t : Tick) (rest : List Tick)
    (hcap : s.capOpened = true) (hwr : s.writerOpened = true)
    (hpre : ∀ u ∈ pre, u.stops = false) (ht : t.stops = true)
    (hcnt : ((framed pre).length : Int) < INT_MAX) :
    ∃ (s1 : VideoRecorder) (evs : List Event),
      s.startRecording (pre ++ t :: rest) = Outcome.done s1.stopRecording rest ∧
      s1.timestamps = (framed (pre ++ [t])).map Tick.now ∧
      s1.video = s.video ++ (framed (pre ++ [t])).map Tick.frame ∧
      s1.frame_count = (framed (pre ++ [t])).length ∧
      s1.capOpened = true ∧ s1.writerOpened = true ∧
      s1.output_path = s.output_path ∧ s1.json_path = s.json_path ∧ s1.fs = s.fs ∧
      s1.writable = s.writable ∧
      s1.log = s.log ++ evs ∧
      evs.count Event.capRead = pre.length + 1 ∧
      evs.count Event.clockRead = (framed (pre ++ [t])).length ∧
      evs.count Event.waitKey = (framed (pre ++ [t])).length ∧
      evs.count Event.writerRelease = 0 ∧
      (∀ p c, evs.count (Event.fileWrite p c) = 0) ∧
      evs.filter (fun e => !e.isProgress) = (pre ++ [t]).flatMap iterationEvents := by
  obtain ⟨s1, evs, h1, h2, h3, h4, _, h6, h7, h8, h9, h10, h11, h12, h13, h14, h15, h16, h17⟩ :=
    captureLoop_stops pre t rest
      { s with is_recording := true, timestamps := [], frame_count := 0 } rfl hpre ht
      (by simpa using hcnt)
  refine ⟨s1, evs, ?_, by simpa using h2, by simpa [hwr] using h3, by simpa using h4,
    by simpa [hcap] using h6, by simpa [hwr] using h7, h8, h9, h10, h11, h12, h13, h14, h15,
    h16, h17⟩
  have hguard : ¬ ((!s.capOpened || !s.writerOpened) = true) := by simp [hcap, hwr]
  unfold VideoRecorder.startRecording
  rw [if_neg hguard]
  simp only []
  rw [h1]

theorem framed_length_add_empty (l : List Tick) :
    (framed l).length + (l.filter (fun u => u.frame.empty)).length = l.length := by
  induction l with
  | nil => rfl
  | cons u l ih =>
    cases h : u.frame.empty <;> simp [framed, h] at ih ⊢ <;> omega

/-- C1 (lockstep invariant). On a session with open source and sink, for every supply of
ticks whose first stopping tick is `t` (fewer than INT_MAX frames before it),
`startRecording` returns at `t` after `stopRecording`; the ledger is the list of clock values
sampled at the ticks that delivered a frame, the sink received exactly the frames of those
ticks in the same order, ledger length = frames written = frame_count, the empty pulls
account for all other iterations, and the ledger file (when it can be opened) holds the
records of the specification and decodes to them, record `i` carrying frame index `i` and
the `i`-th sample. -/
theorem startRecording_lockstep (s : VideoRecorder) (pre : List Tick) (t : Tick)
    (rest : List Tick) (hcap : s.capOpened = true) (hwr : s.writerOpened = true)
    (hpre : ∀ u ∈ pre, u.stops = false) (ht : t.stops = true)
    (hcnt : ((framed pre).length : Int) < INT_MAX) :
    ∃ s', s.startRecording (pre ++ t :: rest) = Outcome.done s' rest ∧
      s'.is_recording = false ∧ s'.writerOpened = false ∧
      s'.timestamps = (framed (pre ++ [t])).map Tick.now ∧
      s'.video = s.video ++ (framed (pre ++ [t])).map Tick.frame ∧
      (s'.timestamps.length : Int) = s'.frame_count ∧
      s'.timestamps.length = s'.video.length - s.video.length ∧
      s'.timestamps.length + ((pre ++ [t]).filter (fun u => u.frame.empty)).length
        = pre.length + 1 ∧
      (∀ i : Nat, (specRecords s'.timestamps)[i]?
        = ((framed (pre ++ [t]))[i]?).map (fun u => specRecord i u.now)) ∧
      (s.writable s.json_path = true →
        s'.fs s.json_path = some (ledgerFileSpec s'.timestamps) ∧
        decodeLedger (ledgerFileSpec s'.timestamps)
          = some (((framed (pre ++ [t])).map Tick.now).enum)) := by
  obtain ⟨s1, evs, h1, h2, h3, h4, h5, h6, h7, h8, h9, h10, _⟩ :=
    startRecording_stops s pre t rest hcap hwr hpre ht hcnt
  obtain ⟨f1, f2, f3, f4, f5, f6, f7, f8, f9⟩ := stop_fields s1
  refine ⟨s1.stopRecording, h1, f6, f5, by rw [f1, h2], by rw [f3, h3], ?_, ?_, ?_, ?_, ?_⟩
  · rw [f1, f2, h2, h4]; simp
  · rw [f1, f3, h2, h3]; simp
  · rw [f1, h2, List.length_map]
    have := framed_length_add_empty (pre ++ [t])
    simpa using this
  · intro i
    rw [f1, h2]
    simp only [specRecords, List.getElem?_map, List.getElem?_enum]
    cases (framed (pre ++ [t]))[i]? <;> simp
  · intro hw
    refine ⟨?_, ?_⟩
    · rw [stop_fs, h10, h8, if_pos hw, f1]
      simp
    · rw [decodeLedger_spec, f1, h2]

/-- The scenario of the specification: five frames, the stop key after the fifth. -/
theorem startRecording_lockstep_witness :
    ∃ s', demoReady.startRecording
        ([frameTick 1 10 (-1), frameTick 2 20 (-1), emptyTick 25 113, frameTick 3 30 (-1),
          frameTick 4 40 (-1)] ++ frameTick 5 50 113 :: [frameTick 6 60 0])
        = Outcome.done s' [frameTick 6 60 0] ∧
      s'.timestamps = [10, 20, 30, 40, 50] ∧
      s'.video = [⟨[1]⟩, ⟨[2]⟩, ⟨[3]⟩, ⟨[4]⟩, ⟨[5]⟩] ∧ s'.frame_count = 5 ∧
      decodeLedger (ledgerFileSpec s'.timestamps)
        = some [(0, 10), (1, 20), (2, 30), (3, 40), (4, 50)] := by
  obtain ⟨s', h1, _, _, h4, h5, h6, _, _, _, h10⟩ :=
    startRecording_lockstep demoReady
      [frameTick 1 10 (-1), frameTick 2 20 (-1), emptyTick 25 113, frameTick 3 30 (-1),
        frameTick 4 40 (-1)]
      (frameTick 5 50 113) [frameTick 6 60 0] (by decide) (by decide) (by decide) (by decide)
      (by decide)
  refine ⟨s', h1, ?_, ?_, ?_, ?_⟩
  · rw [h4]; decide
  · rw [h5]; decide
  · rw [← h6, h4]; decide
  · rw [(h10 (by decide)).2]; decide

/-- C9 (monotonic non-decrease). In a run of `startRecording` that reaches its first stopping
tick, the completed ledger is, in order, the list of the clock values returned for the ticks
that delivered a frame, with one clock read per such tick; so if those returned values are
non-decreasing, `ledger[i] <= ledger[j]` for all `i < j`. -/
theorem ledger_monotone (s : VideoRecorder) (pre : List Tick) (t : Tick) (rest : List Tick)
    (hcap : s.capOpened = true) (hwr : s.writerOpened = true)
    (hpre : ∀ u ∈ pre, u.stops = false) (ht : t.stops = true)
    (hcnt : ((framed pre).length : Int) < INT_MAX)
    (hclock : ((framed (pre ++ [t])).map Tick.now).Pairwise (fun a b => a ≤ b)) :
    ∃ s', s.startRecording (pre ++ t :: rest) = Outcome.done s' rest ∧
      s'.timestamps = (framed (pre ++ [t])).map Tick.now ∧
      s'.timestamps.Sublist ((pre ++ [t]).map Tick.now) ∧
      (newEvents s s').count Event.clockRead = s'.timestamps.length ∧
      (∀ i j (hi : i < j) (hj : j < s'.timestamps.length),
        s'.timestamps.get ⟨i, Nat.lt_trans hi hj⟩ ≤ s'.timestamps.get ⟨j, hj⟩) := by
  obtain ⟨s1, evs, h1, h2, h3, h4, h5, h6, h7, h8, h9, h10, h11, h12, h13, h14, h15, h16⟩ :=
    startRecording_stops s pre t rest hcap hwr hpre ht hcnt
  obtain ⟨f1, f2, f3, f4, f5, f6, f7, f8, f9⟩ := stop_fields s1
  have hts : s1.stopRecording.timestamps = (framed (pre ++ [t])).map Tick.now := by rw [f1, h2]
  refine ⟨s1.stopRecording, h1, hts, ?_, ?_, ?_⟩
  · rw [hts]
    exact (List.filter_sublist _).map _
  · unfold newEvents
    rw [stop_log, h11, List.append_assoc, List.drop_left, hts, List.count_append, h13]
    cases s1.writerOpened <;> cases s1.writable s1.json_path <;>
      simp [List.count_cons]
  · intro i j hi hj
    have hp : s1.stopRecording.timestamps.Pairwise (fun a b => a ≤ b) := by rw [hts]; exact hclock
    exact (List.pairwise_iff_getElem.mp hp) i j (Nat.lt_trans hi hj) hj hi

/-- C9 at a run of two frames with an empty pull between them. -/
theorem ledger_monotone_witness :
    ∃ s', demoReady.startRecording
        ([frameTick 1 10 (-1), emptyTick 11 113] ++ frameTick 2 12 113 :: [frameTick 3 13 0])
        = Outcome.done s' [frameTick 3 13 0] ∧
      s'.timestamps = [10, 12] := by
  obtain ⟨s', h1, h2, _⟩ :=
    ledger_monotone demoReady [frameTick 1 10 (-1), emptyTick 11 113]
      (frameTick 2 12 113) [frameTick 3 13 0] (by decide) (by decide) (by decide) (by decide)
      (by decide) (by decide)
  exact ⟨s', h1, by rw [h2]; decide⟩

theorem startRecording_never_done (s : VideoRecorder) (ticks : List Tick)
    (hcap : s.capOpened = true) (hwr : s.writerOpened = true)
    (h : ∀ u ∈ ticks, u.stops = false) :
    ∀ s' rest, s.startRecording ticks ≠ Outcome.done s' rest := by
  intro s' rest
  have hguard : ¬ ((!s.capOpened || !s.writerOpened) = true) := by simp [hcap, hwr]
  unfold VideoRecorder.startRecording
  rw [if_neg hguard]
  simp only []
  cases hl : VideoRecorder.captureLoop
      { s with is_recording := true, timestamps := [], frame_count := 0 } ticks with
  | done s1 r => exact absurd hl (captureLoop_never_done ticks _ rfl h s1 r)
  | running s1 => simp
  | undefined => simp

theorem framed_append_stop (pre : List Tick) (t : Tick) (ht : t.stops = true) :
    framed (pre ++ [t]) = framed pre ++ [t] := by
  have htf : t.frame.empty = false := by
    unfold Tick.stops at ht; cases h : t.frame.empty <;> simp_all
  simp [framed, List.filter_append, htf]

/-- C10, as the code has it. The stop signal is read once per iteration that pulled a frame,
as the last call of that iteration, after the clock was read and the frame was written to
the sink, and in no other iteration. A run that meets its first tick with a frame and a stop
key returns at that tick, leaving the later ticks unconsumed, with `stopRecording` applied;
the frame and the clock value of that tick are the last entries of sink and ledger and are
counted in `frame_count`. The calls of the run are, in order and progress lines apart,
those of its iterations (`iterationEvents`: pull, and then either the warning alone or clock
read, write, preview, key read) followed by those of `stopRecording`. An iteration whose
pull is empty only pulls and warns, whatever key is pending; and a run on ticks of which
none carries both a frame and a stop key never returns. -/
theorem stop_key_polled_after_frame (s : VideoRecorder) (pre : List Tick) (t : Tick)
    (rest : List Tick) (hcap : s.capOpened = true) (hwr : s.writerOpened = true)
    (hpre : ∀ u ∈ pre, u.stops = false) (ht : t.stops = true)
    (hcnt : ((framed pre).length : Int) < INT_MAX) :
    ∃ s', s.startRecording (pre ++ t :: rest) = Outcome.done s' rest ∧
      s'.is_recording = false ∧ s'.writerOpened = false ∧
      (newEvents s s').count Event.capRead = pre.length + 1 ∧
      (newEvents s s').count Event.waitKey = (framed (pre ++ [t])).length ∧
      (∀ (r : VideoRecorder) (e : Tick) (ticks : List Tick), r.is_recording = true →
        e.frame.empty = true →
        r.captureLoop (e :: ticks) =
          VideoRecorder.captureLoop
            { r with log := r.log ++
                [Event.capRead, Event.cerr "Warning: Empty frame captured"] } ticks) ∧
      (∀ ticks : List Tick, (∀ u ∈ ticks, u.stops = false) →
        ∀ s2 r, s.startRecording ticks ≠ Outcome.done s2 r) ∧
      (newEvents s s').filter (fun e => !e.isProgress) =
        (pre ++ [t]).flatMap iterationEvents ++
          [Event.writerRelease, Event.destroyAllWindows,
           if s.writable s.json_path = true then
             Event.fileWrite s.json_path (ledgerFileSpec s'.timestamps)
           else Event.cerr ("Error: Cannot create JSON file " ++ s.json_path)] ∧
      iterationEvents t = [Event.capRead, Event.clockRead, Event.writerWrite t.frame,
        Event.imshow t.frame, Event.waitKey] ∧
      s'.timestamps = (framed pre).map Tick.now ++ [t.now] ∧
      s'.video = s.video ++ (framed pre).map Tick.frame ++ [t.frame] ∧
      s'.frame_count = (framed pre).length + 1 := by
  obtain ⟨s1, evs, h1, h2, h3, h4, h5, h6, h7, h8, h9, h10, h11, h12, h13, h14, h15, h16,
    h17⟩ := startRecording_stops s pre t rest hcap hwr hpre ht hcnt
  obtain ⟨f1, f2, f3, f4, f5, f6, f7, f8, f9⟩ := stop_fields s1
  have htf : t.frame.empty = false := by
    unfold Tick.stops at ht; cases h : t.frame.empty <;> simp_all
  have hfr := framed_append_stop pre t ht
  refine ⟨s1.stopRecording, h1, f6, f5, ?_, ?_, ?_,
    fun ticks h => startRecording_never_done s ticks hcap hwr h, ?_,
    iterationEvents_frame t htf, ?_, ?_, ?_⟩
  · unfold newEvents
    rw [stop_log, h11, List.append_assoc, List.drop_left, List.count_append, h12]
    cases s1.writerOpened <;> cases s1.writable s1.json_path <;> simp [List.count_cons]
  · unfold newEvents
    rw [stop_log, h11, List.append_assoc, List.drop_left, List.count_append, h14]
    cases s1.writerOpened <;> cases s1.writable s1.json_path <;> simp [List.count_cons]
  · intro r e ticks hr he
    simp [VideoRecorder.captureLoop, VideoRecorder.emit, hr, he]
  · unfold newEvents
    rw [stop_log, h11, List.append_assoc, List.drop_left, List.filter_append, h17, h6, h10, h8,
      f1]
    cases s.writable s.json_path <;> rfl
  · rw [f1, h2, hfr]; simp
  · rw [f3, h3, hfr]; simp
  · rw [f2, h4, hfr]; simp

/-- C10, as the code has it, at a run of three iterations of which two pull a frame: the
whole trace, with the key read after each write and none at the empty pull. -/
theorem stop_key_polled_after_frame_witness :
    ∃ s', demoReady.startRecording
        ([frameTick 1 10 (-1), emptyTick 11 113] ++ frameTick 2 12 113 :: [frameTick 3 13 0])
        = Outcome.done s' [frameTick 3 13 0] ∧
      (newEvents demoReady s').count Event.capRead = 3 ∧
      (newEvents demoReady s').count Event.waitKey = 2 ∧
      (newEvents demoReady s').filter (fun e => !e.isProgress) =
        [Event.capRead, Event.clockRead, Event.writerWrite ⟨[1]⟩, Event.imshow ⟨[1]⟩,
          Event.waitKey,
         Event.capRead, Event.cerr "Warning: Empty frame captured",
         Event.capRead, Event.clockRead, Event.writerWrite ⟨[2]⟩, Event.imshow ⟨[2]⟩,
          Event.waitKey,
         Event.writerRelease, Event.destroyAllWindows,
         Event.fileWrite "/a/b/clip.json" (ledgerFileSpec [10, 12])] ∧
      s'.timestamps = [10, 12] ∧ s'.video = [⟨[1]⟩, ⟨[2]⟩] ∧ s'.frame_count = 2 := by
  obtain ⟨s', h1, _, _, h4, h5, _, _, h8, _, h10, h11, h12⟩ :=
    stop_key_polled_after_frame demoReady [frameTick 1 10 (-1), emptyTick 11 113]
      (frameTick 2 12 113) [frameTick 3 13 0] (by decide) (by decide) (by decide) (by decide)
      (by decide)
  refine ⟨s', h1, by rw [h4]; rfl, by rw [h5]; decide, ?_, ?_, ?_, ?_⟩
  · rw [h8, h10]; decide
  · rw [h10]; decide
  · rw [h11]; decide
  · rw [h12]; decide

/-- C10, counterexample to the claim as stated. An iteration whose pull is empty does not read
the key: with the stop key q pending at such an iteration the loop does not exit (after it
the call has not returned and only the pull and the warning are in the trace), and with
more ticks it goes on to pull, write and time-stamp the next frame before it stops. -/
theorem stop_key_ignored_on_empty_pull :
    VideoRecorder.isStopKey (emptyTick 0 113).key = true ∧
    (demoReady.startRecording [emptyTick 0 113]).summary =
      some ⟨false, true, true, true, [], 0, [],
        demoReady.log ++ [Event.capRead, Event.cerr "Warning: Empty frame captured"], []⟩ ∧
    ((demoReady.startRecording [emptyTick 0 113, frameTick 7 1 113, frameTick 8 2 0]).summary.map
      (fun r => (r.returned, r.timestamps, r.video, r.rest)))
      = some (true, [1], [⟨[7]⟩], [frameTick 8 2 0]) := by
  decide

/-- C7 (Start is guarded). When the source or the sink is not open, `startRecording` consumes
no tick and changes nothing but the trace, to which it adds the one error line: flags,
ledger, frame counter, sink content and files are as before. This is the case of a session
that was never initialized, of a fresh session on which `initialize` returned false, and of
every session on which `stopRecording` has run, which therefore cannot be restarted. -/
theorem startRecording_guarded (s : VideoRecorder) (ticks : List Tick)
    (h : s.capOpened = false ∨ s.writerOpened = false) :
    s.startRecording ticks = Outcome.done
      { s with log := s.log ++ [Event.cerr "Error: Camera or video writer not initialized"] }
      ticks ∧
    (∀ (fs : String → Option String) (writable : String → Bool),
      (VideoRecorder.new fs writable).startRecording ticks = Outcome.done
        { VideoRecorder.new fs writable with
          log := [Event.cerr "Error: Camera or video writer not initialized"] } ticks) ∧
    (∀ (s0 : VideoRecorder) (output_file : String) (camera_id : Int) (env : InitEnv),
      s0.capOpened = false → s0.writerOpened = false →
      (s0.initializeRecorder output_file camera_id env).2 = InitResult.returned false →
      (s0.initializeRecorder output_file camera_id env).1.startRecording ticks = Outcome.done
        { (s0.initializeRecorder output_file camera_id env).1 with
          log := (s0.initializeRecorder output_file camera_id env).1.log ++
            [Event.cerr "Error: Camera or video writer not initialized"] } ticks) ∧
    (∀ s0 : VideoRecorder, s0.stopRecording.startRecording ticks = Outcome.done
      { s0.stopRecording with
        log := s0.stopRecording.log ++
          [Event.cerr "Error: Camera or video writer not initialized"] } ticks) := by
  have key : ∀ x : VideoRecorder, (x.capOpened = false ∨ x.writerOpened = false) →
      x.startRecording ticks = Outcome.done
        { x with log := x.log ++ [Event.cerr "Error: Camera or video writer not initialized"] }
        ticks := by
    intro x hx
    have hguard : (!x.capOpened || !x.writerOpened) = true := by
      rcases hx with hx | hx <;> simp [hx]
    unfold VideoRecorder.startRecording
    rw [if_pos hguard]
    rfl
  exact ⟨key s h, fun fs writable => key _ (Or.inl rfl),
    fun s0 output_file camera_id env hc hw hfail =>
      key _ (Or.inr (init_failed s0 output_file camera_id env hc hw hfail).1),
    fun s0 => key _ (Or.inr (stop_fields s0).2.2.2.2.1)⟩

/-- C7 at a recorder that was never initialized. -/
theorem startRecording_guarded_witness :
    demoNew.startRecording [frameTick 1 10 113] = Outcome.done
      { demoNew with
        log := demoNew.log ++ [Event.cerr "Error: Camera or video writer not initialized"] }
      [frameTick 1 10 113] :=
  (startRecording_guarded demoNew [frameTick 1 10 113] (Or.inl (by decide))).1

theorem VideoRecorder.eq_of_fields (a b : VideoRecorder)
    (h1 : a.capOpened = b.capOpened) (h2 : a.writerOpened = b.writerOpened)
    (h3 : a.timestamps = b.timestamps) (h4 : a.output_path = b.output_path)
    (h5 : a.json_path = b.json_path) (h6 : a.is_recording = b.is_recording)
    (h7 : a.frame_count = b.frame_count) (h8 : a.video = b.video) (h9 : a.fs = b.fs)
    (h10 : a.writable = b.writable) (h11 : a.log = b.log) : a = b := by
  cases a; cases b; simp_all

/-- C4 (idempotent Stop). For every session state, a second `stopRecording` right after a
first leaves every member and the files as the first left them (not recording, sink
closed, same ledger, frame counter, sink content and ledger file); it is a total function
(nothing is thrown); the second call adds to the trace only the window teardown and the
repeated flush, and no release of the sink. -/
theorem stopRecording_idempotent (s : VideoRecorder) :
    s.stopRecording.stopRecording.is_recording = false ∧
    s.stopRecording.stopRecording.writerOpened = false ∧
    { s.stopRecording.stopRecording with log := s.stopRecording.log } = s.stopRecording ∧
    newEvents s.stopRecording s.stopRecording.stopRecording =
      [Event.destroyAllWindows,
       if s.writable s.json_path = true then
         Event.fileWrite s.json_path (ledgerFileSpec s.timestamps)
       else Event.cerr ("Error: Cannot create JSON file " ++ s.json_path)] ∧
    (newEvents s.stopRecording s.stopRecording.stopRecording).count Event.writerRelease = 0 := by
  obtain ⟨f1, f2, f3, f4, f5, f6, f7, f8, f9⟩ := stop_fields s
  obtain ⟨g1, g2, g3, g4, g5, g6, g7, g8, g9⟩ := stop_fields s.stopRecording
  have hlog : newEvents s.stopRecording s.stopRecording.stopRecording =
      [Event.destroyAllWindows,
       if s.writable s.json_path = true then
         Event.fileWrite s.json_path (ledgerFileSpec s.timestamps)
       else Event.cerr ("Error: Cannot create JSON file " ++ s.json_path)] := by
    unfold newEvents
    rw [stop_log s.stopRecording, List.drop_left, f5, f9, f8, f1]
    simp
  refine ⟨g6, g5, ?_, hlog, ?_⟩
  · apply VideoRecorder.eq_of_fields
    · exact g4
    · show s.stopRecording.stopRecording.writerOpened = _
      rw [g5, f5]
    · exact g1
    · exact g7
    · exact g8
    · show s.stopRecording.stopRecording.is_recording = _
      rw [g6, f6]
    · exact g2
    · exact g3
    · show s.stopRecording.stopRecording.fs = _
      rw [stop_fs s.stopRecording, f9, f8, f1, stop_fs s]
      cases hw : s.writable s.json_path
      · simp
      · simp only [if_true]
        funext p
        by_cases hp : p = s.json_path <;> simp [hp]
    · exact g9
    · rfl
  · rw [hlog]
    cases s.writable s.json_path <;> simp [List.count_cons]

/-! ## The destructor and initialize -/

theorem destructor_log (s : VideoRecorder) :
    s.destructor.log = s.log ++
      ((if s.capOpened = true then [Event.capRelease] else []) ++
        (if s.writerOpened = true then [Event.writerRelease] else []) ++
        [Event.destroyAllWindows]) := by
  unfold VideoRecorder.destructor
  cases h1 : s.capOpened <;> cases h2 : s.writerOpened <;> simp [VideoRecorder.emit, h1, h2]

theorem destructor_fields (s : VideoRecorder) :
    s.destructor.capOpened = false ∧ s.destructor.writerOpened = false ∧
    s.destructor.fs = s.fs ∧ s.destructor.timestamps = s.timestamps ∧
    s.destructor.is_recording = s.is_recording := by
  unfold VideoRecorder.destructor
  cases h1 : s.capOpened <;> cases h2 : s.writerOpened <;> simp [VideoRecorder.emit, h1, h2]

/-- C6, as the code has it. `stopRecording` releases the sink first (when it is open), then
tears the windows down, then flushes the ledger: when it returns the sink is closed and the
ledger file, if it can be opened, holds the current ledger. The destructor releases source
and sink and flushes nothing, whatever `is_recording` is: files and ledger are untouched. -/
theorem stopRecording_releases_then_flushes (s : VideoRecorder) :
    newEvents s s.stopRecording =
      (if s.writerOpened = true then [Event.writerRelease] else []) ++
        [Event.destroyAllWindows,
         if s.writable s.json_path = true then
           Event.fileWrite s.json_path (ledgerFileSpec s.timestamps)
         else Event.cerr ("Error: Cannot create JSON file " ++ s.json_path)] ∧
    s.stopRecording.writerOpened = false ∧
    (s.writable s.json_path = true →
      s.stopRecording.fs s.json_path = some (ledgerFileSpec s.timestamps)) ∧
    newEvents s s.destructor =
      (if s.capOpened = true then [Event.capRelease] else []) ++
        (if s.writerOpened = true then [Event.writerRelease] else []) ++
        [Event.destroyAllWindows] ∧
    s.destructor.fs = s.fs ∧ s.destructor.timestamps = s.timestamps ∧
    s.destructor.writerOpened = false := by
  obtain ⟨d1, d2, d3, d4, _⟩ := destructor_fields s
  refine ⟨?_, (stop_fields s).2.2.2.2.1, ?_, ?_, d3, d4, d2⟩
  · unfold newEvents
    rw [stop_log, List.drop_left]
  · intro hw
    rw [stop_fs, if_pos hw]
    simp
  · unfold newEvents
    rw [destructor_log, List.drop_left]

/-- C6, as the code has it, at the initialized session: the flush of the empty ledger. -/
theorem stopRecording_releases_then_flushes_witness :
    demoReady.stopRecording.fs "/a/b/clip.json" = some (ledgerFileSpec []) :=
  (stopRecording_releases_then_flushes demoReady).2.2.1 (by decide)

/-- C6, counterexample to the claim as stated. Stopping the initialized session releases the
sink before the ledger file is written, by a direct call as well as at the end of the
capture loop; and destroying a session that is still recording (one frame taken, loop not
left) releases the sink with no flush at all, the ledger file staying absent. -/
theorem sink_released_before_flush :
    newEvents demoReady demoReady.stopRecording =
      [Event.writerRelease, Event.destroyAllWindows,
       Event.fileWrite "/a/b/clip.json" "[\n]\n"] ∧
    flushPrecedesRelease (newEvents demoReady demoReady.stopRecording) = false ∧
    ((demoReady.startRecording [frameTick 1 10 113]).state?.map
      (fun s => (s.timestamps, flushPrecedesRelease (newEvents demoReady s))))
      = some ([10], false) ∧
    ((demoReady.startRecording [frameTick 1 10 0]).state?.map
      (fun s => (s.is_recording, s.timestamps, newEvents s s.destructor,
        s.destructor.fs s.json_path)))
      = some (true, [10], [Event.capRelease, Event.writerRelease, Event.destroyAllWindows],
          none) := by
  decide

/-- C2 (ledger flush serialisation). When the ledger file can be opened,
`saveTimestampsToJson` makes its content, whatever it was, the ledger file of the
specification: the bracket lines around one line per ledger entry, in insertion order, a
comma after each record but the last. The text is well formed: it decodes to exactly one
record per entry, record `i` having the two fields frame = `i` and timestamp_ns =
`ledger[i]`. Other files are untouched. For the empty ledger the text is the empty
sequence, and this is the file an `initialize` followed directly by `stopRecording` leaves. -/
theorem saveTimestampsToJson_writes_ledger (s : VideoRecorder)
    (hw : s.writable s.json_path = true) :
    s.saveTimestampsToJson.fs s.json_path = some (VideoRecorder.jsonText s.timestamps) ∧
    VideoRecorder.jsonText s.timestamps = ledgerFileSpec s.timestamps ∧
    decodeLedger (VideoRecorder.jsonText s.timestamps) = some s.timestamps.enum ∧
    s.timestamps.enum.length = s.timestamps.length ∧
    (∀ i : Nat, s.timestamps.enum[i]? = (s.timestamps[i]?).map (fun t => (i, t))) ∧
    (∀ i : Nat,
      (specRecords s.timestamps)[i]? = (s.timestamps[i]?).map (fun t => specRecord i t)) ∧
    (∀ p, p ≠ s.json_path → s.saveTimestampsToJson.fs p = s.fs p) ∧
    VideoRecorder.jsonText [] = "[\n]\n" ∧
    (∀ (fs : String → Option String) (writable : String → Bool) (output_file : String)
      (camera_id : Int) (env : InitEnv), writable (getJsonPath output_file) = true →
      ((VideoRecorder.new fs writable).initializeRecorder output_file camera_id
        env).1.stopRecording.fs (getJsonPath output_file) = some "[\n]\n") := by
  refine ⟨?_, jsonText_eq_spec _, ?_, by simp [List.enum_length], ?_, ?_, ?_, by decide, ?_⟩
  · rw [save_fs, if_pos hw, jsonText_eq_spec]; simp
  · rw [jsonText_eq_spec]; exact decodeLedger_spec _
  · intro i
    simp only [List.getElem?_enum]
  · intro i
    simp only [specRecords, List.getElem?_map, List.getElem?_enum]
    cases s.timestamps[i]? <;> simp
  · intro p hp
    rw [save_fs, if_pos hw]; simp [hp]
  · intro fs writable output_file camera_id env hwr
    obtain ⟨i1, i2, i3, i4, _⟩ :=
      init_fields (VideoRecorder.new fs writable) output_file camera_id env
    have hwr2 : ((VideoRecorder.new fs writable).initializeRecorder output_file camera_id
        env).1.writable ((VideoRecorder.new fs writable).initializeRecorder output_file
        camera_id env).1.json_path = true := by
      rw [i3, i2]; exact hwr
    rw [stop_fs, if_pos hwr2, i1, i2]
    simp [VideoRecorder.new]
    decide

/-- The decoder refuses a text with a trailing comma, a record with a missing field and
records that are not separated by a comma. -/
theorem decodeLedger_rejects :
    decodeLedger "[\n  \x7b \"frame\": 0, \"timestamp_ns\": 5 \x7d,\n]\n" = none ∧
    decodeLedger "[\n  \x7b \"frame\": 0 \x7d\n]\n" = none ∧
    decodeLedger
      "[\n  \x7b \"frame\": 0, \"timestamp_ns\": 5 \x7d\n  \x7b \"frame\": 1, \"timestamp_ns\": 6 \x7d\n]\n"
      = none := by
  decide

/-- C2 at a ledger of two entries, one of them negative. -/
theorem saveTimestampsToJson_writes_ledger_witness :
    ({ demoReady with timestamps := [5, -7] } : VideoRecorder).saveTimestampsToJson.fs
      "/a/b/clip.json" =
    some "[\n  \x7b \"frame\": 0, \"timestamp_ns\": 5 \x7d,\n  \x7b \"frame\": 1, \"timestamp_ns\": -7 \x7d\n]\n" :=
  (saveTimestampsToJson_writes_ledger { demoReady with timestamps := [5, -7] } (by decide)).1.trans
    (by decide)

/-- C5, as the code has it. When `initialize` returns false on a session that held neither
source nor sink, the sink is not open and no file was written; the source is open exactly
when it is the sink that failed to open, and `initialize` itself released nothing; when the
source failed to open, `writer.open` was not called. The source left open is released by
the destructor. -/
theorem initialize_failure_state (s : VideoRecorder) (output_file : String) (camera_id : Int)
    (env : InitEnv) (hc : s.capOpened = false) (hw : s.writerOpened = false)
    (hfail : (s.initializeRecorder output_file camera_id env).2 = InitResult.returned false) :
    (s.initializeRecorder output_file camera_id env).1.writerOpened = false ∧
    (s.initializeRecorder output_file camera_id env).1.fs = s.fs ∧
    (s.initializeRecorder output_file camera_id env).1.capOpened = env.capOpens ∧
    (env.capOpens = true → env.writerOpens = false) ∧
    (newEvents s (s.initializeRecorder output_file camera_id env).1).count Event.capRelease
      = 0 ∧
    (env.capOpens = false →
      passedRates (newEvents s (s.initializeRecorder output_file camera_id env).1) = []) ∧
    (s.initializeRecorder output_file camera_id env).1.destructor.capOpened = false ∧
    (s.initializeRecorder output_file camera_id env).1.destructor.writerOpened = false := by
  obtain ⟨h1, h2, h3, h4, h5⟩ := init_failed s output_file camera_id env hc hw hfail
  exact ⟨h1, (init_fields s output_file camera_id env).2.2.2.1, h2, h3, h4, h5,
    (destructor_fields _).1, (destructor_fields _).2.1⟩

/-- C5, as the code has it, at a fresh recorder whose camera does not open. -/
theorem initialize_failure_state_witness :
    (demoNew.initializeRecorder "/a/b/clip.mp4" 0
      { demoEnv with capOpens := false }).1.writerOpened = false :=
  (initialize_failure_state demoNew "/a/b/clip.mp4" 0 { demoEnv with capOpens := false }
    (by decide) (by decide) (by decide)).1

/-- C5, counterexample to the claim as stated. When the source opens and the sink does not,
`initialize` returns false with the source still open: it made no release call. -/
theorem initialize_keeps_source_on_sink_failure :
    (demoNew.initializeRecorder "/a/b/clip.mp4" 0 { demoEnv with writerOpens := false }).2
      = InitResult.returned false ∧
    (demoNew.initializeRecorder "/a/b/clip.mp4" 0
      { demoEnv with writerOpens := false }).1.capOpened = true ∧
    (demoNew.initializeRecorder "/a/b/clip.mp4" 0 { demoEnv with writerOpens := false }).1.log
      = [Event.capOpen 0, Event.createDirectories "/a/b",
         Event.writerOpen "/a/b/clip.mp4" (Double.finite 30) 640 480,
         Event.cerr "Error: Cannot open video writer for /a/b/clip.mp4"] := by
  decide

theorem positive_of_not_le_zero (x : Double) (hn : x ≠ Double.nan)
    (h : Double.le x (Double.finite 0) = false) : Double.lt (Double.finite 0) x = true := by
  cases x with
  | nan => exact absurd rfl hn
  | negInf => simp [Double.le] at h
  | posInf => simp [Double.lt]
  | finite q =>
    simp only [Double.le, decide_eq_false_iff_not, not_le] at h
    simp [Double.lt, h]

/-- C8, as the code has it. Whenever `initialize` reaches `writer.open` (the source opened and
the output directory exists or was created), it passes exactly one rate: 30 when the
reported rate is `<= 0`, the reported rate itself otherwise, which covers a rate `> 0` and a
NaN. The rate passed is strictly positive for every reported rate that is not a NaN. -/
theorem initialize_rate (s : VideoRecorder) (output_file : String) (camera_id : Int)
    (env : InitEnv) (hcap : env.capOpens = true)
    (hdir : parent_path output_file.data = [] ∨ env.dirsCreated = true) :
    ∃ rate, passedRates (s.initializeRecorder output_file camera_id env).1.log
        = passedRates s.log ++ [rate] ∧
      (Double.le env.fps (Double.finite 0) = true → rate = Double.finite 30) ∧
      (Double.le env.fps (Double.finite 0) = false → rate = env.fps) ∧
      (Double.lt (Double.finite 0) env.fps = true → rate = env.fps) ∧
      (env.fps ≠ Double.nan → Double.lt (Double.finite 0) rate = true) := by
  refine ⟨if Double.le env.fps (Double.finite 0) = true then Double.finite 30 else env.fps,
    ?_, ?_, ?_, ?_, ?_⟩
  · unfold VideoRecorder.initializeRecorder
    simp only [VideoRecorder.emit, hcap]
    rcases hdir with hd | hd
    · cases env.writerOpens <;> cases s.capOpened <;> cases s.writerOpened <;>
        simp [hd, passedRates_append, passedRates]
    · cases env.writerOpens <;> cases s.capOpened <;> cases s.writerOpened <;>
        by_cases hp : parent_path output_file.data = [] <;>
        simp [hd, hp, passedRates_append, passedRates]
  · intro h; simp [h]
  · intro h; simp [h]
  · intro h
    cases hx : env.fps with
    | nan => rw [hx] at h; simp [Double.lt] at h
    | negInf => rw [hx] at h; simp [Double.lt] at h
    | posInf => simp [Double.le]
    | finite q =>
      rw [hx] at h
      simp only [Double.lt, decide_eq_true_eq] at h
      simp [Double.le, h]
  · intro hn
    cases hle : Double.le env.fps (Double.finite 0)
    · simpa using positive_of_not_le_zero _ hn hle
    · simp [Double.lt]

/-- C8, as the code has it, at a camera that reports the rate 0. -/
theorem initialize_rate_witness :
    ∃ rate, passedRates (demoNew.initializeRecorder "/a/b/clip.mp4" 0 demoEnv).1.log
        = passedRates demoNew.log ++ [rate] ∧ rate = Double.finite 30 := by
  obtain ⟨rate, h1, h2, _⟩ :=
    initialize_rate demoNew "/a/b/clip.mp4" 0 demoEnv (by decide) (Or.inr (by decide))
  exact ⟨rate, h1, h2 (by decide)⟩

/-- C8, counterexample to the claim as stated. A reported rate that is a NaN is neither
`<= 0` nor `> 0`; `initialize` passes it to the sink unchanged, and it is not strictly
positive. -/
theorem nan_rate_reaches_sink :
    passedRates (demoNew.initializeRecorder "/a/b/clip.mp4" 0
      { demoEnv with fps := Double.nan }).1.log = [Double.nan] ∧
    Double.le Double.nan (Double.finite 0) = false ∧
    Double.lt (Double.finite 0) Double.nan = false := by
  decide

end RgbRecorder
